import Mathlib

/-!
Verification development for the clause-bank kernel in src/tmu/ClauseBank.c
(Convolutional Tsetlin Machine clause bank).

Modelling conventions.  Machine words (C `unsigned int`, 32 bits) are
modelled as `Nat`; the C bitwise operators map to `&&&`, `|||`, `^^^`; the
C bitwise complement `~x` of a 32-bit word is `compl32`, and the C logical
negation `!x` is `cnot`.  Flat arrays are modelled as functions
`Nat → Nat` from word index to word value, updated pointwise; a pointer
offset `&a[k]` becomes index shifting.  The PRNG `fast_rand` is modelled as
an arbitrary draw stream `stream : Nat → Nat` together with a cursor: the
n-th call returns `stream n` and advances the cursor.  The floating-point
comparisons of a draw against `update_p` and against `1 - 1/d` are
abstracted into arbitrary boolean predicates on the drawn word (`updGate`,
`dGate`); `cb_initialize_random_streams` (whose body calls the external
`normal` and performs an unbounded rejection loop with `fast_rand`, both
from fast_rand.h which is outside src/) is abstracted into an arbitrary
function `initStreams` from the PRNG cursor to the produced mask and the
new cursor.  Theorems are universally quantified over these abstractions,
so they hold in particular for the concrete C instantiations.
-/

/-- All-ones 32-bit word `0xffffffff`. -/
def M32 : Nat := 4294967295

/-- C logical negation `!x` of an unsigned word: 1 when the word is zero, else 0. -/
def cnot (x : Nat) : Nat := if x = 0 then 1 else 0

/-- C bitwise complement `~x` of a 32-bit unsigned word. -/
def compl32 (x : Nat) : Nat := x ^^^ M32

theorem compl32_testBit (w : Nat) {i : Nat} (h : i < 32) :
    (compl32 w).testBit i = !(w.testBit i) := by
  have hm : M32.testBit i = true := by
    have h32 : M32 = 2 ^ 32 - 1 := by norm_num [M32]
    rw [h32, Nat.testBit_two_pow_sub_one]
    simpa using h
  simp [compl32, Nat.testBit_xor, hm]

theorem compl32_testBit_high (w : Nat) {i : Nat} (h : 32 ≤ i) :
    (compl32 w).testBit i = w.testBit i := by
  have hm : M32.testBit i = false := by
    have h32 : M32 = 2 ^ 32 - 1 := by norm_num [M32]
    rw [h32, Nat.testBit_two_pow_sub_one]
    simpa using Nat.not_lt.mpr h
  simp [compl32, Nat.testBit_xor, hm]

/-- Value of the bit-sliced counter in lane `i` of a chunk: one bit is read
from each plane word, least-significant plane first (ClauseBank.c stores
plane `b` of a chunk at word offset `b` inside the chunk stripe). -/
def laneVal : List Nat → Nat → Nat
  | [], _ => 0
  | w :: ws, i => (if w.testBit i then 1 else 0) + 2 * laneVal ws i

theorem laneVal_lt (col : List Nat) (i : Nat) : laneVal col i < 2 ^ col.length := by
  induction col with
  | nil => simp [laneVal]
  | cons w ws ih =>
    have h2 : (2 : Nat) ^ (w :: ws).length = 2 ^ ws.length * 2 := by
      simp [List.length_cons, pow_succ]
    rw [h2]
    simp only [laneVal]
    cases hw : w.testBit i
    · simp only [hw, Bool.false_eq_true, if_false]; omega
    · simp only [hw, if_true]; omega

theorem laneVal_congr {i : Nat} : ∀ (l₁ l₂ : List Nat), l₁.length = l₂.length →
    (∀ m, (l₁.getD m 0).testBit i = (l₂.getD m 0).testBit i) →
    laneVal l₁ i = laneVal l₂ i := by
  intro l₁
  induction l₁ with
  | nil =>
    intro l₂ hlen _
    cases l₂ with
    | nil => rfl
    | cons b bs => simp at hlen
  | cons a as ih =>
    intro l₂ hlen hbit
    cases l₂ with
    | nil => simp at hlen
    | cons b bs =>
      simp only [laneVal]
      have h0 := hbit 0
      simp only [List.getD_cons_zero] at h0
      have htail : ∀ m, (as.getD m 0).testBit i = (bs.getD m 0).testBit i := by
        intro m
        have := hbit (m + 1)
        simpa using this
      have hlen' : as.length = bs.length := by simpa using hlen
      rw [h0, ih bs hlen' htail]

theorem laneVal_testBit : ∀ (col : List Nat) (i b : Nat), b < col.length →
    (laneVal col i).testBit b = ((col.getD b 0).testBit i) := by
  intro col
  induction col with
  | nil => intro i b hb; simp at hb
  | cons w ws ih =>
    intro i b hb
    cases b with
    | zero =>
      simp only [laneVal, List.getD_cons_zero, Nat.testBit_zero]
      cases hw : w.testBit i
      · simp only [hw, Bool.false_eq_true, if_false, Nat.zero_add, Nat.mul_mod_right]
        simp
      · simp only [hw, if_true]
        rw [Nat.add_mul_mod_self_left]
        simp
    | succ b =>
      have hb' : b < ws.length := by simpa using hb
      simp only [laneVal, List.getD_cons_succ, Nat.testBit_add_one]
      rw [← ih i b hb']
      congr 1
      cases hw : w.testBit i
      · simp only [hw, Bool.false_eq_true, if_false]; omega
      · simp only [hw, if_true]; omega

/-- Carry loop of cb_inc (ClauseBank.c lines 60-68): one word per state
bit-plane, least significant plane first; returns the updated planes and the
final carry.  The C early exit `if (carry == 0) break` leaves the remaining
planes untouched, which the first branch reproduces. -/
def cb_inc_planes : List Nat → Nat → List Nat × Nat
  | [], carry => ([], carry)
  | w :: ws, carry =>
    if carry = 0 then (w :: ws, 0)
    else
      let q := cb_inc_planes ws (w &&& carry)
      ((w ^^^ carry) :: q.1, q.2)

/-- cb_inc (ClauseBank.c lines 56-75) acting on the list of plane words of
one chunk stripe: run the carry loop, then on overflow (`carry > 0` after
the loop) clamp every plane back to all-ones in the lanes that carried out. -/
def cb_inc_list (col : List Nat) (active : Nat) : List Nat :=
  let q := cb_inc_planes col active
  if 0 < q.2 then q.1.map (fun w => w ||| q.2) else q.1

/-- Borrow loop of cb_dec (ClauseBank.c lines 82-90): identical to the
increment loop except that the borrow propagates where the plane bit is 0
(`carry_next = (~ta_state[b]) & carry`). -/
def cb_dec_planes : List Nat → Nat → List Nat × Nat
  | [], carry => ([], carry)
  | w :: ws, carry =>
    if carry = 0 then (w :: ws, 0)
    else
      let q := cb_dec_planes ws (compl32 w &&& carry)
      ((w ^^^ carry) :: q.1, q.2)

/-- cb_dec (ClauseBank.c lines 78-97): run the borrow loop, then on underflow
clamp every plane to all-zeros in the lanes that borrowed out
(`ta_state[b] &= ~carry`). -/
def cb_dec_list (col : List Nat) (active : Nat) : List Nat :=
  let q := cb_dec_planes col active
  if 0 < q.2 then q.1.map (fun w => w &&& compl32 q.2) else q.1

theorem cb_inc_planes_length (col : List Nat) (carry : Nat) :
    (cb_inc_planes col carry).1.length = col.length := by
  induction col generalizing carry with
  | nil => rfl
  | cons w ws ih =>
    simp only [cb_inc_planes]
    split
    · rfl
    · simpa using ih (w &&& carry)

theorem cb_dec_planes_length (col : List Nat) (carry : Nat) :
    (cb_dec_planes col carry).1.length = col.length := by
  induction col generalizing carry with
  | nil => rfl
  | cons w ws ih =>
    simp only [cb_dec_planes]
    split
    · rfl
    · simpa using ih (compl32 w &&& carry)

theorem cb_inc_list_length (col : List Nat) (active : Nat) :
    (cb_inc_list col active).length = col.length := by
  simp only [cb_inc_list]
  split
  · simp [cb_inc_planes_length]
  · simp [cb_inc_planes_length]

theorem cb_dec_list_length (col : List Nat) (active : Nat) :
    (cb_dec_list col active).length = col.length := by
  simp only [cb_dec_list]
  split
  · simp [cb_dec_planes_length]
  · simp [cb_dec_planes_length]

theorem cb_inc_planes_not_bit {i : Nat} : ∀ (col : List Nat) (carry : Nat),
    carry.testBit i = false →
    (∀ m, (((cb_inc_planes col carry).1.getD m 0).testBit i) = ((col.getD m 0).testBit i)) ∧
      (cb_inc_planes col carry).2.testBit i = false := by
  intro col
  induction col with
  | nil => exact fun carry h => ⟨fun m => rfl, h⟩
  | cons w ws ih =>
    intro carry h
    simp only [cb_inc_planes]
    split
    · exact ⟨fun m => rfl, by simp⟩
    · have hnext : (w &&& carry).testBit i = false := by
        simp [Nat.testBit_and, h]
      obtain ⟨ih1, ih2⟩ := ih (w &&& carry) hnext
      refine ⟨fun m => ?_, ih2⟩
      cases m with
      | zero => simp [Nat.testBit_xor, h]
      | succ m => simpa using ih1 m

theorem cb_dec_planes_not_bit {i : Nat} : ∀ (col : List Nat) (carry : Nat),
    carry.testBit i = false →
    (∀ m, (((cb_dec_planes col carry).1.getD m 0).testBit i) = ((col.getD m 0).testBit i)) ∧
      (cb_dec_planes col carry).2.testBit i = false := by
  intro col
  induction col with
  | nil => exact fun carry h => ⟨fun m => rfl, h⟩
  | cons w ws ih =>
    intro carry h
    simp only [cb_dec_planes]
    split
    · exact ⟨fun m => rfl, by simp⟩
    · have hnext : (compl32 w &&& carry).testBit i = false := by
        simp [Nat.testBit_and, h]
      obtain ⟨ih1, ih2⟩ := ih (compl32 w &&& carry) hnext
      refine ⟨fun m => ?_, ih2⟩
      cases m with
      | zero => simp [Nat.testBit_xor, h]
      | succ m => simpa using ih1 m

theorem laneVal_cons (w : Nat) (ws : List Nat) (i : Nat) :
    laneVal (w :: ws) i = (if w.testBit i then 1 else 0) + 2 * laneVal ws i := rfl

theorem cb_inc_planes_bit {i : Nat} : ∀ (col : List Nat) (carry : Nat),
    carry.testBit i = true →
    laneVal (cb_inc_planes col carry).1 i = (laneVal col i + 1) % 2 ^ col.length ∧
      ((cb_inc_planes col carry).2.testBit i = true ↔ laneVal col i = 2 ^ col.length - 1) := by
  intro col
  induction col with
  | nil =>
    intro carry h
    refine ⟨by simp [cb_inc_planes, laneVal], ?_⟩
    simp [cb_inc_planes, laneVal, h]
  | cons w ws ih =>
    intro carry h
    have hc0 : carry ≠ 0 := by
      intro hc; rw [hc] at h; simp at h
    simp only [cb_inc_planes, if_neg hc0]
    have hL := laneVal_lt ws i
    have hpos : (0:Nat) < 2 ^ ws.length := Nat.pos_pow_of_pos _ (by omega)
    cases hw : w.testBit i
    · -- lane bit 0: this plane flips to 1, no further carry in this lane
      have hx : (w ^^^ carry).testBit i = true := by
        simp [Nat.testBit_xor, hw, h]
      have hnext : (w &&& carry).testBit i = false := by
        simp [Nat.testBit_and, hw]
      obtain ⟨p1, p2⟩ := cb_inc_planes_not_bit ws (w &&& carry) hnext
      have hlv : laneVal (cb_inc_planes ws (w &&& carry)).1 i = laneVal ws i :=
        laneVal_congr _ _ (cb_inc_planes_length ws _) p1
      constructor
      · simp only [laneVal_cons, hx, if_true, hw, Bool.false_eq_true, if_false, hlv,
          List.length_cons, pow_succ]
        rw [Nat.mod_eq_of_lt (by omega)]
        omega
      · simp only [p2, Bool.false_eq_true, laneVal_cons, hw, if_false,
          List.length_cons, pow_succ]
        exact ⟨fun hF => hF.elim, fun heq => by omega⟩
    · -- lane bit 1: this plane flips to 0 and the carry moves up
      have hx : (w ^^^ carry).testBit i = false := by
        simp [Nat.testBit_xor, hw, h]
      have hnext : (w &&& carry).testBit i = true := by
        simp [Nat.testBit_and, hw, h]
      obtain ⟨q1, q2⟩ := ih (w &&& carry) hnext
      constructor
      · simp only [laneVal_cons, hx, Bool.false_eq_true, if_false, hw, if_true, q1,
          List.length_cons, pow_succ]
        have hstep : 1 + 2 * laneVal ws i + 1 = 2 * (laneVal ws i + 1) := by omega
        rw [hstep, Nat.mul_comm (2 ^ ws.length) 2, Nat.mul_mod_mul_left]
        omega
      · simp only [laneVal_cons, hw, if_true, List.length_cons, pow_succ, q2]
        omega

theorem cb_dec_planes_bit {i : Nat} (hi : i < 32) : ∀ (col : List Nat) (carry : Nat),
    carry.testBit i = true →
    laneVal (cb_dec_planes col carry).1 i =
        (if laneVal col i = 0 then 2 ^ col.length - 1 else laneVal col i - 1) ∧
      ((cb_dec_planes col carry).2.testBit i = true ↔ laneVal col i = 0) := by
  intro col
  induction col with
  | nil =>
    intro carry h
    refine ⟨by simp [cb_dec_planes, laneVal], ?_⟩
    simp [cb_dec_planes, laneVal, h]
  | cons w ws ih =>
    intro carry h
    have hc0 : carry ≠ 0 := by
      intro hc; rw [hc] at h; simp at h
    simp only [cb_dec_planes, if_neg hc0]
    have hL := laneVal_lt ws i
    have hpos : (0:Nat) < 2 ^ ws.length := Nat.pos_pow_of_pos _ (by omega)
    cases hw : w.testBit i
    · -- lane bit 0: plane flips to 1 and the borrow moves up
      have hx : (w ^^^ carry).testBit i = true := by
        simp [Nat.testBit_xor, hw, h]
      have hnext : (compl32 w &&& carry).testBit i = true := by
        simp [Nat.testBit_and, compl32_testBit w hi, hw, h]
      obtain ⟨q1, q2⟩ := ih (compl32 w &&& carry) hnext
      constructor
      · simp only [laneVal_cons, hx, if_true, hw, Bool.false_eq_true, if_false, q1,
          List.length_cons, pow_succ]
        by_cases hz : laneVal ws i = 0
        · simp only [hz, if_true]
          omega
        · rw [if_neg hz, if_neg (by omega : ¬(0 + 2 * laneVal ws i = 0))]
          omega
      · simp only [q2, laneVal_cons, hw, Bool.false_eq_true, if_false]
        omega
    · -- lane bit 1: plane flips to 0, the borrow is absorbed here
      have hx : (w ^^^ carry).testBit i = false := by
        simp [Nat.testBit_xor, hw, h]
      have hnext : (compl32 w &&& carry).testBit i = false := by
        simp [Nat.testBit_and, compl32_testBit w hi, hw]
      obtain ⟨p1, p2⟩ := cb_dec_planes_not_bit ws (compl32 w &&& carry) hnext
      have hlv : laneVal (cb_dec_planes ws (compl32 w &&& carry)).1 i = laneVal ws i :=
        laneVal_congr _ _ (cb_dec_planes_length ws _) p1
      constructor
      · simp only [laneVal_cons, hx, Bool.false_eq_true, if_false, hw, if_true, hlv]
        rw [if_neg (by omega : ¬(1 + 2 * laneVal ws i = 0))]
        omega
      · simp only [p2, Bool.false_eq_true, laneVal_cons, hw, if_true]
        exact ⟨fun hF => hF.elim, fun heq => by omega⟩

theorem laneVal_map_or_true {i c : Nat} (h : c.testBit i = true) :
    ∀ l : List Nat, laneVal (l.map (fun w => w ||| c)) i = 2 ^ l.length - 1 := by
  intro l
  induction l with
  | nil => simp [laneVal]
  | cons w ws ih =>
    have hpos : (0:Nat) < 2 ^ ws.length := Nat.pos_pow_of_pos _ (by omega)
    simp only [List.map_cons, laneVal_cons, Nat.testBit_or, h, Bool.or_true, if_true, ih,
      List.length_cons, pow_succ]
    omega

theorem laneVal_map_or_false {i c : Nat} (h : c.testBit i = false) :
    ∀ l : List Nat, laneVal (l.map (fun w => w ||| c)) i = laneVal l i := by
  intro l
  induction l with
  | nil => rfl
  | cons w ws ih =>
    simp only [List.map_cons, laneVal_cons, Nat.testBit_or, h, Bool.or_false, ih]

theorem laneVal_map_and_compl_true {i c : Nat} (hi : i < 32) (h : c.testBit i = true) :
    ∀ l : List Nat, laneVal (l.map (fun w => w &&& compl32 c)) i = 0 := by
  intro l
  induction l with
  | nil => rfl
  | cons w ws ih =>
    simp only [List.map_cons, laneVal_cons, Nat.testBit_and, compl32_testBit c hi, h,
      Bool.not_true, Bool.and_false, Bool.false_eq_true, if_false, ih]

theorem laneVal_map_and_compl_false {i c : Nat} (hi : i < 32) (h : c.testBit i = false) :
    ∀ l : List Nat, laneVal (l.map (fun w => w &&& compl32 c)) i = laneVal l i := by
  intro l
  induction l with
  | nil => rfl
  | cons w ws ih =>
    simp only [List.map_cons, laneVal_cons, Nat.testBit_and, compl32_testBit c hi, h,
      Bool.not_false, Bool.and_true, ih]

/-- Per-lane effect of cb_inc on a selected lane: the counter saturates at
all-ones, otherwise it is incremented by one. -/
theorem laneVal_cb_inc_list_bit (col : List Nat) (active i : Nat)
    (h : active.testBit i = true) :
    laneVal (cb_inc_list col active) i =
      min (laneVal col i + 1) (2 ^ col.length - 1) := by
  obtain ⟨q1, q2⟩ := cb_inc_planes_bit col active h
  have hL := laneVal_lt col i
  have hpos : (0:Nat) < 2 ^ col.length := Nat.pos_pow_of_pos _ (by omega)
  simp only [cb_inc_list]
  split
  · -- overflow clamp ran
    rename_i hcarry
    by_cases hbit : (cb_inc_planes col active).2.testBit i = true
    · have hsat : laneVal col i = 2 ^ col.length - 1 := q2.mp hbit
      rw [laneVal_map_or_true hbit, cb_inc_planes_length]
      omega
    · have hbit' : (cb_inc_planes col active).2.testBit i = false := by
        cases hb : (cb_inc_planes col active).2.testBit i
        · rfl
        · exact absurd hb hbit
      have hnosat : ¬ laneVal col i = 2 ^ col.length - 1 := by
        intro hc
        exact hbit (q2.mpr hc)
      rw [laneVal_map_or_false hbit', q1, Nat.mod_eq_of_lt (by omega)]
      omega
  · -- no overflow: the final carry is zero
    rename_i hcarry
    have hz : (cb_inc_planes col active).2 = 0 := by omega
    have hbit' : (cb_inc_planes col active).2.testBit i = false := by
      rw [hz]; simp
    have hnosat : ¬ laneVal col i = 2 ^ col.length - 1 := by
      intro hc
      have := q2.mpr hc
      rw [hbit'] at this
      cases this
    rw [q1, Nat.mod_eq_of_lt (by omega)]
    omega

/-- Per-lane effect of cb_inc on an unselected lane: every plane bit of the
lane, hence the counter value, is unchanged. -/
theorem cb_inc_list_not_bit (col : List Nat) (active i : Nat)
    (h : active.testBit i = false) :
    ∀ m, (((cb_inc_list col active).getD m 0).testBit i) = ((col.getD m 0).testBit i) := by
  obtain ⟨p1, p2⟩ := cb_inc_planes_not_bit col active h
  intro m
  simp only [cb_inc_list]
  split
  · by_cases hm : m < (cb_inc_planes col active).1.length
    · have hm' : m < ((cb_inc_planes col active).1.map
          (fun w => w ||| (cb_inc_planes col active).2)).length := by simpa using hm
      rw [List.getD_eq_getElem _ _ hm', List.getElem_map]
      simp only [Nat.testBit_or, p2, Bool.or_false]
      rw [← List.getD_eq_getElem _ _ hm]
      exact p1 m
    · have hm1 : (cb_inc_planes col active).1.length ≤ m := Nat.le_of_not_lt hm
      have hm2 : ((cb_inc_planes col active).1.map
          (fun w => w ||| (cb_inc_planes col active).2)).length ≤ m := by
        simpa using hm1
      rw [List.getD_eq_default _ _ hm2]
      have hp := p1 m
      rw [List.getD_eq_default _ _ hm1] at hp
      exact hp
  · exact p1 m

theorem laneVal_cb_inc_list_not_bit (col : List Nat) (active i : Nat)
    (h : active.testBit i = false) :
    laneVal (cb_inc_list col active) i = laneVal col i :=
  laneVal_congr _ _ (cb_inc_list_length col active) (cb_inc_list_not_bit col active i h)

/-- Per-lane effect of cb_dec on a selected lane: the counter saturates at
zero, otherwise it is decremented by one (truncated subtraction). -/
theorem laneVal_cb_dec_list_bit (col : List Nat) (active i : Nat) (hi : i < 32)
    (h : active.testBit i = true) :
    laneVal (cb_dec_list col active) i = laneVal col i - 1 := by
  obtain ⟨q1, q2⟩ := cb_dec_planes_bit hi col active h
  have hL := laneVal_lt col i
  simp only [cb_dec_list]
  split
  · rename_i hcarry
    by_cases hbit : (cb_dec_planes col active).2.testBit i = true
    · have hzero : laneVal col i = 0 := q2.mp hbit
      rw [laneVal_map_and_compl_true hi hbit]
      omega
    · have hbit' : (cb_dec_planes col active).2.testBit i = false := by
        cases hb : (cb_dec_planes col active).2.testBit i
        · rfl
        · exact absurd hb hbit
      have hnz : ¬ laneVal col i = 0 := fun hc => hbit (q2.mpr hc)
      rw [laneVal_map_and_compl_false hi hbit', q1, if_neg hnz]
  · rename_i hcarry
    have hz : (cb_dec_planes col active).2 = 0 := by omega
    have hbit' : (cb_dec_planes col active).2.testBit i = false := by
      rw [hz]; simp
    have hnz : ¬ laneVal col i = 0 := by
      intro hc
      have := q2.mpr hc
      rw [hbit'] at this
      cases this
    rw [q1, if_neg hnz]

/-- Per-lane effect of cb_dec on an unselected lane: unchanged. -/
theorem cb_dec_list_not_bit (col : List Nat) (active i : Nat) (hi : i < 32)
    (h : active.testBit i = false) :
    ∀ m, (((cb_dec_list col active).getD m 0).testBit i) = ((col.getD m 0).testBit i) := by
  obtain ⟨p1, p2⟩ := cb_dec_planes_not_bit col active h
  intro m
  simp only [cb_dec_list]
  split
  · by_cases hm : m < (cb_dec_planes col active).1.length
    · have hm' : m < ((cb_dec_planes col active).1.map
          (fun w => w &&& compl32 (cb_dec_planes col active).2)).length := by simpa using hm
      rw [List.getD_eq_getElem _ _ hm', List.getElem_map]
      simp only [Nat.testBit_and, compl32_testBit _ hi, p2, Bool.not_false, Bool.and_true]
      rw [← List.getD_eq_getElem _ _ hm]
      exact p1 m
    · have hm1 : (cb_dec_planes col active).1.length ≤ m := Nat.le_of_not_lt hm
      have hm2 : ((cb_dec_planes col active).1.map
          (fun w => w &&& compl32 (cb_dec_planes col active).2)).length ≤ m := by
        simpa using hm1
      rw [List.getD_eq_default _ _ hm2]
      have hp := p1 m
      rw [List.getD_eq_default _ _ hm1] at hp
      exact hp
  · exact p1 m

theorem laneVal_cb_dec_list_not_bit (col : List Nat) (active i : Nat) (hi : i < 32)
    (h : active.testBit i = false) :
    laneVal (cb_dec_list col active) i = laneVal col i :=
  laneVal_congr _ _ (cb_dec_list_length col active) (cb_dec_list_not_bit col active i hi h)

/-- Read the `B` plane words of one chunk stripe starting at flat index `base`. -/
def readStripe (ta : Nat → Nat) (base B : Nat) : List Nat :=
  (List.range B).map fun b => ta (base + b)

/-- Write a list of words back over the flat array starting at `base`. -/
def writeStripe (ta : Nat → Nat) (base : Nat) (ws : List Nat) : Nat → Nat :=
  fun p => if base ≤ p ∧ p < base + ws.length then ws.getD (p - base) 0 else ta p

/-- cb_inc on the flat state array: the C call `cb_inc(&ta_state[base], active, B)`
reads and rewrites exactly the `B` words at `base`. -/
def cb_inc (ta : Nat → Nat) (base active B : Nat) : Nat → Nat :=
  writeStripe ta base (cb_inc_list (readStripe ta base B) active)

/-- cb_dec on the flat state array. -/
def cb_dec (ta : Nat → Nat) (base active B : Nat) : Nat → Nat :=
  writeStripe ta base (cb_dec_list (readStripe ta base B) active)

theorem readStripe_length (ta : Nat → Nat) (base B : Nat) :
    (readStripe ta base B).length = B := by
  simp [readStripe]

theorem readStripe_getD (ta : Nat → Nat) (base B b : Nat) (hb : b < B) :
    (readStripe ta base B).getD b 0 = ta (base + b) := by
  have hb' : b < (readStripe ta base B).length := by simpa [readStripe_length] using hb
  rw [List.getD_eq_getElem _ _ hb']
  simp [readStripe]

theorem readStripe_congr (ta ta' : Nat → Nat) (base B : Nat)
    (h : ∀ b, b < B → ta (base + b) = ta' (base + b)) :
    readStripe ta base B = readStripe ta' base B := by
  apply List.ext_getElem
  · simp [readStripe_length]
  · intro b h1 h2
    have hb : b < B := by simpa [readStripe_length] using h1
    simp only [readStripe, List.getElem_map, List.getElem_range]
    exact h b hb

theorem cb_inc_frame (ta : Nat → Nat) (base active B p : Nat)
    (h : p < base ∨ base + B ≤ p) : cb_inc ta base active B p = ta p := by
  have hlen : (cb_inc_list (readStripe ta base B) active).length = B := by
    rw [cb_inc_list_length, readStripe_length]
  simp only [cb_inc, writeStripe, hlen]
  rw [if_neg (by omega)]

theorem cb_dec_frame (ta : Nat → Nat) (base active B p : Nat)
    (h : p < base ∨ base + B ≤ p) : cb_dec ta base active B p = ta p := by
  have hlen : (cb_dec_list (readStripe ta base B) active).length = B := by
    rw [cb_dec_list_length, readStripe_length]
  simp only [cb_dec, writeStripe, hlen]
  rw [if_neg (by omega)]

theorem cb_inc_at (ta : Nat → Nat) (base active B b : Nat) (hb : b < B) :
    cb_inc ta base active B (base + b) =
      (cb_inc_list (readStripe ta base B) active).getD b 0 := by
  have hlen : (cb_inc_list (readStripe ta base B) active).length = B := by
    rw [cb_inc_list_length, readStripe_length]
  simp only [cb_inc, writeStripe, hlen]
  rw [if_pos (by omega)]
  congr 1
  omega

theorem cb_dec_at (ta : Nat → Nat) (base active B b : Nat) (hb : b < B) :
    cb_dec ta base active B (base + b) =
      (cb_dec_list (readStripe ta base B) active).getD b 0 := by
  have hlen : (cb_dec_list (readStripe ta base B) active).length = B := by
    rw [cb_dec_list_length, readStripe_length]
  simp only [cb_dec, writeStripe, hlen]
  rw [if_pos (by omega)]
  congr 1
  omega

theorem readStripe_cb_inc (ta : Nat → Nat) (base active B : Nat) :
    readStripe (cb_inc ta base active B) base B =
      cb_inc_list (readStripe ta base B) active := by
  apply List.ext_getElem
  · rw [readStripe_length, cb_inc_list_length, readStripe_length]
  · intro b h1 h2
    have hb : b < B := by simpa [readStripe_length] using h1
    have hb' : b < (cb_inc_list (readStripe ta base B) active).length := h2
    rw [show (readStripe (cb_inc ta base active B) base B)[b] =
        (readStripe (cb_inc ta base active B) base B).getD b 0 from
      (List.getD_eq_getElem _ _ h1).symm]
    rw [readStripe_getD _ _ _ _ hb, cb_inc_at _ _ _ _ _ hb]
    exact (List.getD_eq_getElem _ _ hb').symm ▸ rfl

theorem readStripe_cb_dec (ta : Nat → Nat) (base active B : Nat) :
    readStripe (cb_dec ta base active B) base B =
      cb_dec_list (readStripe ta base B) active := by
  apply List.ext_getElem
  · rw [readStripe_length, cb_dec_list_length, readStripe_length]
  · intro b h1 h2
    have hb : b < B := by simpa [readStripe_length] using h1
    have hb' : b < (cb_dec_list (readStripe ta base B) active).length := h2
    rw [show (readStripe (cb_dec ta base active B) base B)[b] =
        (readStripe (cb_dec ta base active B) base B).getD b 0 from
      (List.getD_eq_getElem _ _ h1).symm]
    rw [readStripe_getD _ _ _ _ hb, cb_dec_at _ _ _ _ _ hb]
    exact (List.getD_eq_getElem _ _ hb').symm ▸ rfl

/-- A bit of an unselected lane is unchanged by cb_inc, at every position. -/
theorem cb_inc_testBit_not (ta : Nat → Nat) (base active B p i : Nat)
    (h : active.testBit i = false) :
    ((cb_inc ta base active B p).testBit i) = ((ta p).testBit i) := by
  by_cases hp : base ≤ p ∧ p < base + B
  · obtain ⟨hp1, hp2⟩ := hp
    have hb : p - base < B := by omega
    have hpe : p = base + (p - base) := by omega
    rw [hpe, cb_inc_at _ _ _ _ _ hb, cb_inc_list_not_bit _ _ _ h,
      readStripe_getD _ _ _ _ hb]
  · rw [cb_inc_frame]
    omega

/-- A bit of an unselected lane is unchanged by cb_dec, at every position. -/
theorem cb_dec_testBit_not (ta : Nat → Nat) (base active B p i : Nat) (hi : i < 32)
    (h : active.testBit i = false) :
    ((cb_dec ta base active B p).testBit i) = ((ta p).testBit i) := by
  by_cases hp : base ≤ p ∧ p < base + B
  · obtain ⟨hp1, hp2⟩ := hp
    have hb : p - base < B := by omega
    have hpe : p = base + (p - base) := by omega
    rw [hpe, cb_dec_at _ _ _ _ _ hb, cb_dec_list_not_bit _ _ _ hi h,
      readStripe_getD _ _ _ _ hb]
  · rw [cb_dec_frame]
    omega

theorem laneVal_cb_inc_list_ge (col : List Nat) (active i : Nat) :
    laneVal col i ≤ laneVal (cb_inc_list col active) i := by
  have hL := laneVal_lt col i
  cases hb : active.testBit i
  · rw [laneVal_cb_inc_list_not_bit col active i hb]
  · rw [laneVal_cb_inc_list_bit col active i hb]
    omega

theorem laneVal_cb_dec_list_le (col : List Nat) (active i : Nat) (hi : i < 32) :
    laneVal (cb_dec_list col active) i ≤ laneVal col i := by
  cases hb : active.testBit i
  · rw [laneVal_cb_dec_list_not_bit col active i hi hb]
  · rw [laneVal_cb_dec_list_bit col active i hi hb]
    omega

/-- An arbitrary sequence of cb_inc / cb_dec steps with arbitrary masks,
applied to one chunk stripe (`true` selects an increment). -/
def cbSeq (col : List Nat) (ops : List (Bool × Nat)) : List Nat :=
  ops.foldl (fun c op => if op.1 then cb_inc_list c op.2 else cb_dec_list c op.2) col

theorem cbSeq_length (col : List Nat) (ops : List (Bool × Nat)) :
    (cbSeq col ops).length = col.length := by
  induction ops generalizing col with
  | nil => rfl
  | cons op ops ih =>
    simp only [cbSeq, List.foldl_cons]
    cases op.1
    · simp only [Bool.false_eq_true, if_false]
      rw [show (ops.foldl (fun c op => if op.1 then cb_inc_list c op.2 else cb_dec_list c op.2)
          (cb_dec_list col op.2)) = cbSeq (cb_dec_list col op.2) ops from rfl]
      rw [ih, cb_dec_list_length]
    · simp only [if_true]
      rw [show (ops.foldl (fun c op => if op.1 then cb_inc_list c op.2 else cb_dec_list c op.2)
          (cb_inc_list col op.2)) = cbSeq (cb_inc_list col op.2) ops from rfl]
      rw [ih, cb_inc_list_length]

/-- Number of 32-bit TA chunks, `(number_of_features-1)/32 + 1` as computed in
every outer routine of ClauseBank.c. -/
def numChunks (F : Nat) : Nat := (F - 1) / 32 + 1

/-- The tail-chunk word mask, computed identically at the top of every outer
routine of ClauseBank.c (e.g. lines 271-276):
`filter = ~(0xffffffff << (F % 32))` on 32-bit words when `F % 32 != 0`,
otherwise all-ones. -/
def mkFilter (F : Nat) : Nat :=
  if F % 32 ≠ 0 then compl32 ((M32 <<< (F % 32)) % 2 ^ 32) else M32

theorem mkFilter_eq (F : Nat) :
    mkFilter F = 2 ^ (if F % 32 = 0 then 32 else F % 32) - 1 := by
  have hgen : ∀ s, s < 32 →
      (if s ≠ 0 then compl32 ((M32 <<< s) % 2 ^ 32) else M32) =
        2 ^ (if s = 0 then 32 else s) - 1 := by
    intro s hs
    interval_cases s <;> decide
  have hs : F % 32 < 32 := Nat.mod_lt _ (by omega)
  have := hgen (F % 32) hs
  simpa [mkFilter] using this

theorem mkFilter_testBit (F i : Nat) (hF : 0 < F) (hi : i < 32) :
    (mkFilter F).testBit i = decide (32 * (numChunks F - 1) + i < F) := by
  rw [mkFilter_eq, Nat.testBit_two_pow_sub_one]
  simp only [decide_eq_decide, numChunks]
  by_cases h0 : F % 32 = 0 <;> simp only [h0, if_true, if_false] <;> omega

theorem mkFilter_lt (F : Nat) : mkFilter F < 2 ^ 32 := by
  rw [mkFilter_eq]
  split
  · omega
  · have : F % 32 < 32 := Nat.mod_lt _ (by omega)
    have h1 : (2:Nat) ^ (F % 32) ≤ 2 ^ 32 := Nat.pow_le_pow_right (by omega) (by omega)
    omega

/-- Per-chunk match test written verbatim in both
cb_calculate_clause_output_feedback (ClauseBank.c lines 105-117) and
cb_calculate_clause_output_update (lines 194-206): the per-chunk input is
`Xi[p,k] | (!literal_active[k])` with the C LOGICAL negation `!`, and the
tail chunk comparison is masked by `filter` on both sides.  The early break
on a failed chunk only skips no-op iterations, so the loop is the
conjunction below. -/
def fbPatchMatch (ta : Nat → Nat) (K B filter : Nat) (la Xi : Nat → Nat)
    (patch : Nat) : Bool :=
  ((List.range (K - 1)).all fun k =>
    ta (k * B + B - 1) &&& (Xi (patch * K + k) ||| cnot (la k)) == ta (k * B + B - 1)) &&
  (ta ((K - 1) * B + B - 1) &&& (Xi (patch * K + (K - 1)) ||| cnot (la (K - 1))) &&& filter ==
    ta ((K - 1) * B + B - 1) &&& filter)

/-- cb_calculate_clause_output_update (ClauseBank.c lines 190-214): returns 1
as soon as some patch matches, else 0; the early `return(1)` makes the patch
loop an existential over patches. -/
def cb_calculate_clause_output_update (ta : Nat → Nat) (K B filter P : Nat)
    (la Xi : Nat → Nat) : Nat :=
  if (List.range P).any (fbPatchMatch ta K B filter la Xi) then 1 else 0

/-- cb_calculate_clause_output_feedback (ClauseBank.c lines 100-133): collect
the matching patches in patch order into output_one_patches; when the list is
nonempty the clause output is 1 and one fast_rand draw selects
`output_one_patches[fast_rand() % count]` (modelled by `some patch` plus an
advanced cursor); when it is empty the output is 0, `clause_patch` stays
unset (`none`) and no draw is consumed. -/
def cb_calculate_clause_output_feedback (stream : Nat → Nat) (ta : Nat → Nat)
    (K B filter P : Nat) (la Xi : Nat → Nat) (r : Nat) : Option Nat × Nat :=
  let ones := (List.range P).filter (fbPatchMatch ta K B filter la Xi)
  if 0 < ones.length then (some (ones.getD (stream r % ones.length) 0), r + 1)
  else (none, r)

/-- Per-chunk match test of the Predict and Patchwise modes (ClauseBank.c
lines 245 and 222): the input is `Xi[p,k]` alone, no literal_active mask. -/
def xPatchMatch (ta : Nat → Nat) (K B filter : Nat) (Xi : Nat → Nat)
    (patch : Nat) : Bool :=
  ((List.range (K - 1)).all fun k =>
    ta (k * B + B - 1) &&& Xi (patch * K + k) == ta (k * B + B - 1)) &&
  (ta ((K - 1) * B + B - 1) &&& Xi (patch * K + (K - 1)) &&& filter ==
    ta ((K - 1) * B + B - 1) &&& filter)

/-- The all_exclude accumulator of cb_calculate_clause_output_predict
(ClauseBank.c lines 242-258) as it stands when a patch completes without an
early break: every non-tail action word is zero and the filtered tail action
word is zero.  It does not depend on the patch. -/
def allExclude (ta : Nat → Nat) (K B filter : Nat) : Bool :=
  ((List.range (K - 1)).all fun k => ta (k * B + B - 1) == 0) &&
  (ta ((K - 1) * B + B - 1) &&& filter == 0)

/-- cb_calculate_clause_output_predict (ClauseBank.c lines 238-266): returns 1
iff some patch matches while the clause is not all-exclude.  On a matching
patch the chunk loop ran to completion so `all_exclude` holds the full
accumulation; on a failed patch `output` is 0 and line 260 does not return. -/
def cb_calculate_clause_output_predict (ta : Nat → Nat) (K B filter P : Nat)
    (Xi : Nat → Nat) : Nat :=
  if (List.range P).any (fun patch =>
      xPatchMatch ta K B filter Xi patch && !allExclude ta K B filter) then 1 else 0

/-- cb_calculate_clause_output_patchwise (ClauseBank.c lines 216-236): one
output bit per patch, same match test as Predict, no all-exclude rule. -/
def cb_calculate_clause_output_patchwise (ta : Nat → Nat) (K B filter : Nat)
    (Xi : Nat → Nat) (patch : Nat) : Nat :=
  if xPatchMatch ta K B filter Xi patch then 1 else 0

/-- Match test as the specification words it (spec section 4.3, Update and
Feedback rows): the per-chunk input is `Xi[p,k] | ~literal_active[k]` with
the BITWISE complement, so that every literal masked out by literal_active
is treated as satisfied.  Stated for comparison against `fbPatchMatch`,
which embeds the C code (the C writes the logical `!literal_active[k]`). -/
def specPatchMatch (ta : Nat → Nat) (K B filter : Nat) (la Xi : Nat → Nat)
    (patch : Nat) : Bool :=
  ((List.range (K - 1)).all fun k =>
    ta (k * B + B - 1) &&& (Xi (patch * K + k) ||| compl32 (la k)) == ta (k * B + B - 1)) &&
  (ta ((K - 1) * B + B - 1) &&& (Xi (patch * K + (K - 1)) ||| compl32 (la (K - 1))) &&& filter ==
    ta ((K - 1) * B + B - 1) &&& filter)

/-- Fuel-driven binary logarithm, kernel-computable. -/
def log2fuel : Nat → Nat → Nat
  | 0, _ => 0
  | fuel + 1, n => if 2 ≤ n then log2fuel fuel (n / 2) + 1 else 0

/-- Binary logarithm of the offending word.  The C code calls the math.h
log2 on a word with exactly one set bit, yielding the exact bit index; this
structural version agrees with Nat.log2 (theorem clog2_eq). -/
def clog2 (n : Nat) : Nat := log2fuel n n

theorem log2fuel_eq : ∀ (fuel n : Nat), n ≤ fuel → log2fuel fuel n = Nat.log2 n := by
  intro fuel
  induction fuel with
  | zero =>
    intro n hn
    have h0 : n = 0 := by omega
    subst h0
    rw [Nat.log2]
    simp [log2fuel]
  | succ fuel ih =>
    intro n hn
    rw [log2fuel, Nat.log2]
    by_cases h2 : 2 ≤ n
    · rw [if_pos h2, if_pos h2, ih (n / 2) (by omega)]
    · rw [if_neg h2, if_neg h2]

theorem clog2_eq (n : Nat) : clog2 n = Nat.log2 n :=
  log2fuel_eq n n (le_refl n)

/-- Offending-literal word of a non-tail chunk in
cb_calculate_clause_output_single_false_literal (ClauseBank.c line 146):
`(ta & (Xi | ~L)) ^ ta` with the BITWISE complement of literal_active. -/
def sflOffNontail (ta : Nat → Nat) (K B : Nat) (la Xi : Nat → Nat)
    (patch k : Nat) : Nat :=
  (ta (k * B + B - 1) &&& (Xi (patch * K + k) ||| compl32 (la k))) ^^^ ta (k * B + B - 1)

/-- Offending-literal word of the tail chunk (ClauseBank.c line 162), with
both sides masked by `filter`. -/
def sflOffTail (ta : Nat → Nat) (K B filter : Nat) (la Xi : Nat → Nat)
    (patch : Nat) : Nat :=
  (ta ((K - 1) * B + B - 1) &&& (Xi (patch * K + (K - 1)) ||| compl32 (la (K - 1))) &&& filter) ^^^
    (ta ((K - 1) * B + B - 1) &&& filter)

/-- One step of the non-tail chunk scan of the single-offending-literal
search (ClauseBank.c lines 144-159).  State: (max_one_offending_literal,
already_one_offending_literal, offending_literal_id).  Once max_one drops to
0 the C code breaks out of the chunk loop; freezing the state reproduces
that, since the skipped iterations would not run. -/
def sflStep (s : Bool × Bool × Nat) (off : Nat) : Bool × Bool × Nat :=
  if !s.1 then s
  else if 0 < off &&& (off - 1) then (false, s.2.1, s.2.2)
  else if off ≠ 0 then
    (if !s.2.1 then (s.1, true, clog2 off) else (false, s.2.1, s.2.2))
  else s

/-- Non-tail chunk scan for one patch: fold the step over chunks 0..K-2. -/
def sflNontail (ta : Nat → Nat) (K B : Nat) (la Xi : Nat → Nat)
    (patch : Nat) : Bool × Bool × Nat :=
  ((List.range (K - 1)).map (sflOffNontail ta K B la Xi patch)).foldl sflStep
    (true, false, 0)

/-- Outcome of scanning one patch in the single-offending-literal search:
either collect an id, skip this patch, or break out of the PATCH loop (the
tail-chunk `break` at ClauseBank.c lines 165 and 172 is outside the chunk
loop, so it leaves the patch loop altogether). -/
inductive PatchScan where
  | collect (id : Nat)
  | skip
  | stop

/-- Scan of one patch (ClauseBank.c lines 140-180): non-tail chunks first,
then the tail-chunk handler whose two failure branches break the patch loop;
a patch is collected when it shows exactly one offending literal. -/
def sflPatch (ta : Nat → Nat) (K B filter : Nat) (la Xi : Nat → Nat)
    (patch : Nat) : PatchScan :=
  let s := sflNontail ta K B la Xi patch
  let offt := sflOffTail ta K B filter la Xi patch
  if 0 < offt &&& (offt - 1) then .stop
  else if offt ≠ 0 then
    (if !s.2.1 then (if s.1 then .collect (clog2 offt) else .skip) else .stop)
  else if s.1 && s.2.1 then .collect s.2.2 else .skip

/-- The patch loop of the search: candidates are collected in patch order;
a `.stop` outcome abandons the remaining patches, keeping what was
collected so far. -/
def sflCollect (ta : Nat → Nat) (K B filter : Nat) (la Xi : Nat → Nat) :
    List Nat → List Nat
  | [] => []
  | p :: ps =>
    match sflPatch ta K B filter la Xi p with
    | .collect id => id :: sflCollect ta K B filter la Xi ps
    | .skip => sflCollect ta K B filter la Xi ps
    | .stop => []

/-- cb_calculate_clause_output_single_false_literal (ClauseBank.c lines
136-188): scan the patches, then return
`candidate_offending_literals[fast_rand() % count]` when any candidate was
collected (consuming one draw), else the sentinel -1 (no draw). -/
def cb_calculate_clause_output_single_false_literal (stream : Nat → Nat)
    (ta : Nat → Nat) (K B filter P : Nat) (la Xi : Nat → Nat) (r : Nat) :
    Int × Nat :=
  let cands := sflCollect ta K B filter la Xi (List.range P)
  if 0 < cands.length then (Int.ofNat (cands.getD (stream r % cands.length) 0), r + 1)
  else (-1, r)

/-- The mutable bank arrays.  cb_type_i_feedback and cb_type_ii_feedback
receive only the ta_state pointer, so their embeddings leave the other two
fields untouched, exactly as the C calls cannot reach those arrays. -/
structure Bank where
  ta : Nat → Nat
  ind : Nat → Nat
  cat : Nat → Nat

/-- Pointwise store `a[idx] = v` on a flat array. -/
def updF (f : Nat → Nat) (idx v : Nat) : Nat → Nat :=
  fun p => if p = idx then v else f p

/-- Type Ia per-clause chunk loop (ClauseBank.c lines 295-305): boosted
increments use `L & Xi`, unboosted ones also mask with the random stream,
then the erode step decrements `L & ~Xi & R`. -/
def typeIaBody (ta : Nat → Nat) (cpos K B : Nat) (la Xi ftt : Nat → Nat)
    (patch boost : Nat) : Nat → Nat :=
  (List.range K).foldl
    (fun t k =>
      let t1 :=
        if boost = 1 then
          cb_inc t (cpos + k * B) (la k &&& Xi (patch * K + k)) B
        else
          cb_inc t (cpos + k * B) (la k &&& Xi (patch * K + k) &&& compl32 (ftt k)) B
      cb_dec t1 (cpos + k * B) (la k &&& compl32 (Xi (patch * K + k)) &&& ftt k) B)
    ta

/-- Type Ib per-clause chunk loop (ClauseBank.c lines 309-313): only
decrements, with mask `L & R`. -/
def typeIbBody (ta : Nat → Nat) (cpos K B : Nat) (la ftt : Nat → Nat) :
    Nat → Nat :=
  (List.range K).foldl
    (fun t k => cb_dec t (cpos + k * B) (la k &&& ftt k) B) ta

/-- Type II per-clause chunk loop (ClauseBank.c lines 340-343): only
increments, with mask `L & ~Xi & ~action`; the action word is read live from
the same chunk being updated. -/
def typeIIBody (ta : Nat → Nat) (cpos K B : Nat) (la Xi : Nat → Nat)
    (patch : Nat) : Nat → Nat :=
  (List.range K).foldl
    (fun t k =>
      cb_inc t (cpos + k * B)
        (la k &&& compl32 (Xi (patch * K + k)) &&& compl32 (t (cpos + k * B + B - 1))) B)
    ta

/-- Type III ind-state increment loop (ClauseBank.c lines 373-376). -/
def typeIIIIndInc (ind : Nat → Nat) (cposInd K Bind : Nat) (la cat Xi : Nat → Nat)
    (catBase patch : Nat) : Nat → Nat :=
  (List.range K).foldl
    (fun t k => cb_inc t (cposInd + k * Bind)
      (la k &&& cat (catBase + k) &&& Xi (patch * K + k)) Bind) ind

/-- Type III ind-state decrement loop (ClauseBank.c lines 380-384). -/
def typeIIIIndDec (ind : Nat → Nat) (cposInd K Bind : Nat) (la cat Xi : Nat → Nat)
    (catBase patch : Nat) : Nat → Nat :=
  (List.range K).foldl
    (fun t k => cb_dec t (cposInd + k * Bind)
      (la k &&& compl32 (cat (catBase + k)) &&& Xi (patch * K + k)) Bind) ind

/-- Type III ledger inversion (ClauseBank.c lines 388-398):
`add = ~cat; remove = target ? cat : 0; cat = (cat | add) & ~remove`. -/
def catInvert (cat : Nat → Nat) (catBase K target : Nat) : Nat → Nat :=
  (List.range K).foldl
    (fun c k =>
      let remove := if target ≠ 0 then c (catBase + k) else 0
      let add := compl32 (c (catBase + k))
      updF c (catBase + k) ((c (catBase + k) ||| add) &&& compl32 remove)) cat

/-- Type III final TA decrement loop (ClauseBank.c lines 421-426): mask
`literal_active[k] & ~ind_state[... + B_ind - 1]`; the TA action plane is
not consulted. -/
def typeIIITaDec (ta ind : Nat → Nat) (cposTa cposInd K Bta Bind : Nat)
    (la : Nat → Nat) : Nat → Nat :=
  (List.range K).foldl
    (fun t k => cb_dec t (cposTa + k * Bta)
      (la k &&& compl32 (ind (cposInd + k * Bind + Bind - 1))) Bta) ta

/-- One iteration of the clause loop of cb_type_i_feedback (ClauseBank.c
lines 279-315): the update_p draw is consumed first in every iteration, then
the `|| !clause_active[j]` gate; selected clauses run the Feedback-mode
evaluation, the random-stream refresh, and the Ia or Ib chunk loop. -/
def typeIClauseStep (stream : Nat → Nat) (updGate : Nat → Bool)
    (initStreams : Nat → (Nat → Nat) × Nat) (K B P filter boost : Nat)
    (clause_active la Xi : Nat → Nat) (s : Bank × Nat) (j : Nat) : Bank × Nat :=
  if updGate (stream s.2) || (clause_active j == 0) then (s.1, s.2 + 1)
  else
    let cpos := j * K * B
    let ev := cb_calculate_clause_output_feedback stream
      (fun p => s.1.ta (cpos + p)) K B filter P la Xi (s.2 + 1)
    let is := initStreams ev.2
    match ev.1 with
    | some patch =>
        ({ s.1 with ta := typeIaBody s.1.ta cpos K B la Xi is.1 patch boost }, is.2)
    | none =>
        ({ s.1 with ta := typeIbBody s.1.ta cpos K B la is.1 }, is.2)

/-- cb_type_i_feedback (ClauseBank.c lines 269-316). -/
def cb_type_i_feedback (stream : Nat → Nat) (updGate : Nat → Bool)
    (initStreams : Nat → (Nat → Nat) × Nat) (C F B P boost : Nat)
    (clause_active la Xi : Nat → Nat) (st : Bank) (r : Nat) : Bank × Nat :=
  (List.range C).foldl
    (typeIClauseStep stream updGate initStreams (numChunks F) B P (mkFilter F)
      boost clause_active la Xi) (st, r)

/-- One iteration of the clause loop of cb_type_ii_feedback (ClauseBank.c
lines 328-345): the update_p draw first, then the clause_active gate; when
the Feedback-mode output is 1 the Type II chunk loop runs. -/
def typeIIClauseStep (stream : Nat → Nat) (updGate : Nat → Bool)
    (K B P filter : Nat) (clause_active la Xi : Nat → Nat)
    (s : Bank × Nat) (j : Nat) : Bank × Nat :=
  if updGate (stream s.2) || (clause_active j == 0) then (s.1, s.2 + 1)
  else
    let cpos := j * K * B
    let ev := cb_calculate_clause_output_feedback stream
      (fun p => s.1.ta (cpos + p)) K B filter P la Xi (s.2 + 1)
    match ev.1 with
    | some patch => ({ s.1 with ta := typeIIBody s.1.ta cpos K B la Xi patch }, ev.2)
    | none => (s.1, ev.2)

/-- cb_type_ii_feedback (ClauseBank.c lines 318-346). -/
def cb_type_ii_feedback (stream : Nat → Nat) (updGate : Nat → Bool)
    (C F B P : Nat) (clause_active la Xi : Nat → Nat) (st : Bank) (r : Nat) :
    Bank × Nat :=
  (List.range C).foldl
    (typeIIClauseStep stream updGate (numChunks F) B P (mkFilter F)
      clause_active la Xi) (st, r)

/-- One iteration of the clause loop of cb_type_iii_feedback (ClauseBank.c
lines 358-427): inactive clauses are skipped before any draw; otherwise the
Feedback-mode evaluation runs, then on output 1 the ind updates, the ledger
inversion (d-gate draw only when target is nonzero), on output 0 the
single-offending-literal search and ledger toggle; finally the update_p
draw gates the TA decrement loop. -/
def typeIIIClauseStep (stream : Nat → Nat) (updGate dGate : Nat → Bool)
    (K Bta Bind P filter target : Nat) (clause_active la Xi : Nat → Nat)
    (s : Bank × Nat) (j : Nat) : Bank × Nat :=
  if clause_active j == 0 then s
  else
    let cposTa := j * K * Bta
    let cposInd := j * K * Bind
    let catBase := j * K
    let ev := cb_calculate_clause_output_feedback stream
      (fun p => s.1.ta (cposTa + p)) K Bta filter P la Xi s.2
    let s1 : Bank × Nat :=
      match ev.1 with
      | some patch =>
          let indr : (Nat → Nat) × Nat :=
            if target ≠ 0 then
              (if dGate (stream ev.2) then
                (typeIIIIndInc s.1.ind cposInd K Bind la s.1.cat Xi catBase patch,
                  ev.2 + 1)
              else (s.1.ind, ev.2 + 1))
            else (s.1.ind, ev.2)
          let ind2 := typeIIIIndDec indr.1 cposInd K Bind la s.1.cat Xi catBase patch
          let cat2 := catInvert s.1.cat catBase K target
          ({ ta := s.1.ta, ind := ind2, cat := cat2 }, indr.2)
      | none =>
          let ol := cb_calculate_clause_output_single_false_literal stream
            (fun p => s.1.ta (cposTa + p)) K Bta filter P la Xi ev.2
          let cat2 :=
            if ol.1 ≠ -1 then
              let onat := ol.1.toNat
              let ch := onat / 32
              let pz := onat % 32
              (if s.1.cat (catBase + ch) &&& (1 <<< pz) == 0 then
                updF s.1.cat (catBase + ch) (s.1.cat (catBase + ch) ||| (1 <<< pz))
              else if target ≠ 0 then
                updF s.1.cat (catBase + ch) (s.1.cat (catBase + ch) &&& compl32 (1 <<< pz))
              else s.1.cat)
            else s.1.cat
          ({ s.1 with cat := cat2 }, ol.2)
    if updGate (stream s1.2) || (clause_active j == 0) then (s1.1, s1.2 + 1)
    else
      ({ s1.1 with ta := typeIIITaDec s1.1.ta s1.1.ind cposTa cposInd K Bta Bind la },
        s1.2 + 1)

/-- cb_type_iii_feedback (ClauseBank.c lines 348-428). -/
def cb_type_iii_feedback (stream : Nat → Nat) (updGate dGate : Nat → Bool)
    (C F Bta Bind P target : Nat) (clause_active la Xi : Nat → Nat)
    (st : Bank) (r : Nat) : Bank × Nat :=
  (List.range C).foldl
    (typeIIIClauseStep stream updGate dGate (numChunks F) Bta Bind P (mkFilter F)
      target clause_active la Xi) (st, r)

theorem foldl_inv {α : Type} (step : α → Nat → α) (inv : α → Prop) :
    ∀ (l : List Nat) (a : α), (∀ b k, k ∈ l → inv b → inv (step b k)) → inv a →
      inv (l.foldl step a) := by
  intro l
  induction l with
  | nil => intro a _ ha; exact ha
  | cons x xs ih =>
    intro a hstep ha
    exact ih (step a x) (fun b k hk hb => hstep b k (List.mem_cons_of_mem _ hk) hb)
      (hstep a x (List.mem_cons_self _ _) ha)

/-- A chunk loop whose k-th step writes only inside `[base + k*B, base + k*B + B)`
leaves every position outside `[base, base + K*B)` unchanged. -/
theorem chunkFold_frame (step : (Nat → Nat) → Nat → (Nat → Nat)) (base B K : Nat)
    (hw : ∀ t k p, (p < base + k * B ∨ base + k * B + B ≤ p) → step t k p = t p)
    (t : Nat → Nat) (p : Nat) (hp : p < base ∨ base + K * B ≤ p) :
    ((List.range K).foldl step t) p = t p := by
  refine foldl_inv step (fun u => u p = t p) (List.range K) t ?_ rfl
  intro b k hk hb
  have hkK : k < K := List.mem_range.mp hk
  rw [hw b k p ?_, hb]
  have h1 : (k + 1) * B = k * B + B := Nat.succ_mul k B
  have h2 : (k + 1) * B ≤ K * B := Nat.mul_le_mul_right _ (by omega)
  rcases hp with h | h
  · left; omega
  · right; omega

/-- Value of a chunk loop at a position inside chunk `k0`: only the `k0`-th
step acted there, applied to the prefix fold. -/
theorem chunkFold_at (step : (Nat → Nat) → Nat → (Nat → Nat)) (base B : Nat)
    (hw : ∀ t k p, (p < base + k * B ∨ base + k * B + B ≤ p) → step t k p = t p) :
    ∀ (K k0 : Nat), k0 < K → ∀ (t : Nat → Nat) (p : Nat),
      base + k0 * B ≤ p → p < base + k0 * B + B →
      ((List.range K).foldl step t) p = step ((List.range k0).foldl step t) k0 p := by
  intro K
  induction K with
  | zero => intro k0 h; omega
  | succ K ih =>
    intro k0 hk0 t p hp1 hp2
    rw [List.range_succ, List.foldl_append]
    simp only [List.foldl_cons, List.foldl_nil]
    by_cases hE : k0 = K
    · subst hE; rfl
    · have hlt : k0 < K := by omega
      rw [hw _ K p ?_, ih k0 hlt t p hp1 hp2]
      left
      have h1 : (k0 + 1) * B = k0 * B + B := Nat.succ_mul k0 B
      have h2 : (k0 + 1) * B ≤ K * B := Nat.mul_le_mul_right _ (by omega)
      omega

/-- The prefix fold over chunks `0..k0-1` has not touched any position at or
above `base + k0*B`. -/
theorem chunkFold_prefix (step : (Nat → Nat) → Nat → (Nat → Nat)) (base B k0 : Nat)
    (hw : ∀ t k p, (p < base + k * B ∨ base + k * B + B ≤ p) → step t k p = t p)
    (t : Nat → Nat) (p : Nat) (hp : base + k0 * B ≤ p) :
    ((List.range k0).foldl step t) p = t p :=
  chunkFold_frame step base B k0 (fun u k q hq => hw u k q hq) t p (Or.inr hp)

/-- A chunk loop whose steps preserve bit `i` at every position whenever lane
`i` of `literal_active[k]` is clear leaves bit `i` of every word of a chunk
whose literal_active lane is clear unchanged. -/
theorem chunkFold_testBit (step : (Nat → Nat) → Nat → (Nat → Nat)) (base B K : Nat)
    (la : Nat → Nat) (i : Nat)
    (hw : ∀ t k p, (p < base + k * B ∨ base + k * B + B ≤ p) → step t k p = t p)
    (hlane : ∀ t k p, (la k).testBit i = false →
      ((step t k p).testBit i) = ((t p).testBit i))
    (k0 b : Nat) (hk0 : k0 < K) (hb : b < B) (hla : (la k0).testBit i = false)
    (t : Nat → Nat) :
    ((((List.range K).foldl step t) (base + k0 * B + b)).testBit i) =
      ((t (base + k0 * B + b)).testBit i) := by
  rw [chunkFold_at step base B hw K k0 hk0 t _ (by omega) (by omega)]
  rw [hlane _ _ _ hla]
  congr 1
  exact chunkFold_prefix step base B k0 hw t _ (by omega)

theorem typeIaBody_frame (ta : Nat → Nat) (cpos K B : Nat) (la Xi ftt : Nat → Nat)
    (patch boost p : Nat) (hp : p < cpos ∨ cpos + K * B ≤ p) :
    typeIaBody ta cpos K B la Xi ftt patch boost p = ta p := by
  unfold typeIaBody
  refine chunkFold_frame _ cpos B K ?_ ta p hp
  intro t k q hq
  show cb_dec _ (cpos + k * B) _ B q = t q
  rw [cb_dec_frame _ _ _ _ _ hq]
  by_cases hb : boost = 1
  · rw [if_pos hb, cb_inc_frame _ _ _ _ _ hq]
  · rw [if_neg hb, cb_inc_frame _ _ _ _ _ hq]

theorem typeIbBody_frame (ta : Nat → Nat) (cpos K B : Nat) (la ftt : Nat → Nat)
    (p : Nat) (hp : p < cpos ∨ cpos + K * B ≤ p) :
    typeIbBody ta cpos K B la ftt p = ta p := by
  unfold typeIbBody
  refine chunkFold_frame _ cpos B K ?_ ta p hp
  intro t k q hq
  exact cb_dec_frame _ _ _ _ _ hq

theorem typeIIBody_frame (ta : Nat → Nat) (cpos K B : Nat) (la Xi : Nat → Nat)
    (patch p : Nat) (hp : p < cpos ∨ cpos + K * B ≤ p) :
    typeIIBody ta cpos K B la Xi patch p = ta p := by
  unfold typeIIBody
  refine chunkFold_frame _ cpos B K ?_ ta p hp
  intro t k q hq
  exact cb_inc_frame _ _ _ _ _ hq

theorem typeIIIIndInc_frame (ind : Nat → Nat) (cposInd K Bind : Nat)
    (la cat Xi : Nat → Nat) (catBase patch p : Nat)
    (hp : p < cposInd ∨ cposInd + K * Bind ≤ p) :
    typeIIIIndInc ind cposInd K Bind la cat Xi catBase patch p = ind p := by
  unfold typeIIIIndInc
  refine chunkFold_frame _ cposInd Bind K ?_ ind p hp
  intro t k q hq
  exact cb_inc_frame _ _ _ _ _ hq

theorem typeIIIIndDec_frame (ind : Nat → Nat) (cposInd K Bind : Nat)
    (la cat Xi : Nat → Nat) (catBase patch p : Nat)
    (hp : p < cposInd ∨ cposInd + K * Bind ≤ p) :
    typeIIIIndDec ind cposInd K Bind la cat Xi catBase patch p = ind p := by
  unfold typeIIIIndDec
  refine chunkFold_frame _ cposInd Bind K ?_ ind p hp
  intro t k q hq
  exact cb_dec_frame _ _ _ _ _ hq

theorem typeIIITaDec_frame (ta ind : Nat → Nat) (cposTa cposInd K Bta Bind : Nat)
    (la : Nat → Nat) (p : Nat) (hp : p < cposTa ∨ cposTa + K * Bta ≤ p) :
    typeIIITaDec ta ind cposTa cposInd K Bta Bind la p = ta p := by
  unfold typeIIITaDec
  refine chunkFold_frame _ cposTa Bta K ?_ ta p hp
  intro t k q hq
  exact cb_dec_frame _ _ _ _ _ hq

theorem catInvert_frame (cat : Nat → Nat) (catBase K target p : Nat)
    (hp : p < catBase ∨ catBase + K ≤ p) :
    catInvert cat catBase K target p = cat p := by
  unfold catInvert
  have hp' : p < catBase ∨ catBase + K * 1 ≤ p := by
    rcases hp with h | h
    · left; exact h
    · right; omega
  refine chunkFold_frame _ catBase 1 K ?_ cat p hp'
  intro t k q hq
  show updF t (catBase + k) _ q = t q
  simp only [updF]
  rw [if_neg (by omega)]

theorem typeIaBody_testBit (ta : Nat → Nat) (cpos K B : Nat) (la Xi ftt : Nat → Nat)
    (patch boost : Nat) (k0 b i : Nat) (hk0 : k0 < K) (hb : b < B) (hi : i < 32)
    (hla : (la k0).testBit i = false) :
    ((typeIaBody ta cpos K B la Xi ftt patch boost (cpos + k0 * B + b)).testBit i) =
      ((ta (cpos + k0 * B + b)).testBit i) := by
  unfold typeIaBody
  refine chunkFold_testBit _ cpos B K la i ?_ ?_ k0 b hk0 hb hla ta
  · intro t k q hq
    show cb_dec _ (cpos + k * B) _ B q = t q
    rw [cb_dec_frame _ _ _ _ _ hq]
    by_cases hbo : boost = 1
    · rw [if_pos hbo, cb_inc_frame _ _ _ _ _ hq]
    · rw [if_neg hbo, cb_inc_frame _ _ _ _ _ hq]
  · intro t k q hlaf
    show ((cb_dec _ (cpos + k * B) _ B q).testBit i) = ((t q).testBit i)
    rw [cb_dec_testBit_not _ _ _ _ _ _ hi (by simp [Nat.testBit_and, hlaf])]
    by_cases hbo : boost = 1
    · rw [if_pos hbo, cb_inc_testBit_not _ _ _ _ _ _ (by simp [Nat.testBit_and, hlaf])]
    · rw [if_neg hbo, cb_inc_testBit_not _ _ _ _ _ _ (by simp [Nat.testBit_and, hlaf])]

theorem typeIbBody_testBit (ta : Nat → Nat) (cpos K B : Nat) (la ftt : Nat → Nat)
    (k0 b i : Nat) (hk0 : k0 < K) (hb : b < B) (hi : i < 32)
    (hla : (la k0).testBit i = false) :
    ((typeIbBody ta cpos K B la ftt (cpos + k0 * B + b)).testBit i) =
      ((ta (cpos + k0 * B + b)).testBit i) := by
  unfold typeIbBody
  refine chunkFold_testBit _ cpos B K la i ?_ ?_ k0 b hk0 hb hla ta
  · intro t k q hq
    exact cb_dec_frame _ _ _ _ _ hq
  · intro t k q hlaf
    exact cb_dec_testBit_not _ _ _ _ _ _ hi (by simp [Nat.testBit_and, hlaf])

theorem typeIIBody_testBit (ta : Nat → Nat) (cpos K B : Nat) (la Xi : Nat → Nat)
    (patch : Nat) (k0 b i : Nat) (hk0 : k0 < K) (hb : b < B) (hi : i < 32)
    (hla : (la k0).testBit i = false) :
    ((typeIIBody ta cpos K B la Xi patch (cpos + k0 * B + b)).testBit i) =
      ((ta (cpos + k0 * B + b)).testBit i) := by
  unfold typeIIBody
  refine chunkFold_testBit _ cpos B K la i ?_ ?_ k0 b hk0 hb hla ta
  · intro t k q hq
    exact cb_inc_frame _ _ _ _ _ hq
  · intro t k q hlaf
    exact cb_inc_testBit_not _ _ _ _ _ _ (by simp [Nat.testBit_and, hlaf])

theorem typeIIITaDec_testBit (ta ind : Nat → Nat) (cposTa cposInd K Bta Bind : Nat)
    (la : Nat → Nat) (k0 b i : Nat) (hk0 : k0 < K) (hb : b < Bta) (hi : i < 32)
    (hla : (la k0).testBit i = false) :
    ((typeIIITaDec ta ind cposTa cposInd K Bta Bind la (cposTa + k0 * Bta + b)).testBit i) =
      ((ta (cposTa + k0 * Bta + b)).testBit i) := by
  unfold typeIIITaDec
  refine chunkFold_testBit _ cposTa Bta K la i ?_ ?_ k0 b hk0 hb hla ta
  · intro t k q hq
    exact cb_dec_frame _ _ _ _ _ hq
  · intro t k q hlaf
    exact cb_dec_testBit_not _ _ _ _ _ _ hi (by simp [Nat.testBit_and, hlaf])

theorem typeIIBody_stripe (ta : Nat → Nat) (cpos K B : Nat) (la Xi : Nat → Nat)
    (patch k0 : Nat) (hk0 : k0 < K) (hB : 0 < B) :
    readStripe (typeIIBody ta cpos K B la Xi patch) (cpos + k0 * B) B =
      cb_inc_list (readStripe ta (cpos + k0 * B) B)
        (la k0 &&& compl32 (Xi (patch * K + k0)) &&&
          compl32 (ta (cpos + k0 * B + B - 1))) := by
  have hw : ∀ (t : Nat → Nat) (k q : Nat),
      (q < cpos + k * B ∨ cpos + k * B + B ≤ q) →
      cb_inc t (cpos + k * B)
        (la k &&& compl32 (Xi (patch * K + k)) &&& compl32 (t (cpos + k * B + B - 1))) B q
        = t q := by
    intro t k q hq
    exact cb_inc_frame _ _ _ _ _ hq
  have hpre : ∀ q, cpos + k0 * B ≤ q →
      ((List.range k0).foldl (fun t k =>
        cb_inc t (cpos + k * B)
          (la k &&& compl32 (Xi (patch * K + k)) &&& compl32 (t (cpos + k * B + B - 1))) B)
        ta) q = ta q := by
    intro q hq
    exact chunkFold_prefix _ cpos B k0 hw ta q hq
  apply List.ext_getElem
  · rw [readStripe_length, cb_inc_list_length, readStripe_length]
  · intro b h1 h2
    have hb : b < B := by simpa [readStripe_length] using h1
    rw [show (readStripe (typeIIBody ta cpos K B la Xi patch) (cpos + k0 * B) B)[b] =
        (readStripe (typeIIBody ta cpos K B la Xi patch) (cpos + k0 * B) B).getD b 0 from
      (List.getD_eq_getElem _ _ h1).symm]
    rw [readStripe_getD _ _ _ _ hb]
    unfold typeIIBody
    rw [chunkFold_at _ cpos B hw K k0 hk0 ta _ (by omega) (by omega)]
    rw [show ∀ t : Nat → Nat, cb_inc t (cpos + k0 * B)
        (la k0 &&& compl32 (Xi (patch * K + k0)) &&& compl32 (t (cpos + k0 * B + B - 1))) B
          (cpos + k0 * B + b) =
        (cb_inc_list (readStripe t (cpos + k0 * B) B)
          (la k0 &&& compl32 (Xi (patch * K + k0)) &&&
            compl32 (t (cpos + k0 * B + B - 1)))).getD b 0 from
      fun t => cb_inc_at t _ _ _ _ hb]
    rw [readStripe_congr _ ta _ _ (fun b' hb' => hpre _ (by omega))]
    rw [hpre _ (by omega)]
    exact (List.getD_eq_getElem _ _ h2).symm ▸ rfl

theorem typeIIITaDec_stripe (ta ind : Nat → Nat) (cposTa cposInd K Bta Bind : Nat)
    (la : Nat → Nat) (k0 : Nat) (hk0 : k0 < K) :
    readStripe (typeIIITaDec ta ind cposTa cposInd K Bta Bind la) (cposTa + k0 * Bta) Bta =
      cb_dec_list (readStripe ta (cposTa + k0 * Bta) Bta)
        (la k0 &&& compl32 (ind (cposInd + k0 * Bind + Bind - 1))) := by
  have hw : ∀ (t : Nat → Nat) (k q : Nat),
      (q < cposTa + k * Bta ∨ cposTa + k * Bta + Bta ≤ q) →
      cb_dec t (cposTa + k * Bta)
        (la k &&& compl32 (ind (cposInd + k * Bind + Bind - 1))) Bta q = t q := by
    intro t k q hq
    exact cb_dec_frame _ _ _ _ _ hq
  have hpre : ∀ q, cposTa + k0 * Bta ≤ q →
      ((List.range k0).foldl (fun t k =>
        cb_dec t (cposTa + k * Bta)
          (la k &&& compl32 (ind (cposInd + k * Bind + Bind - 1))) Bta) ta) q = ta q := by
    intro q hq
    exact chunkFold_prefix _ cposTa Bta k0 hw ta q hq
  apply List.ext_getElem
  · rw [readStripe_length, cb_dec_list_length, readStripe_length]
  · intro b h1 h2
    have hb : b < Bta := by simpa [readStripe_length] using h1
    rw [show (readStripe (typeIIITaDec ta ind cposTa cposInd K Bta Bind la)
          (cposTa + k0 * Bta) Bta)[b] =
        (readStripe (typeIIITaDec ta ind cposTa cposInd K Bta Bind la)
          (cposTa + k0 * Bta) Bta).getD b 0 from
      (List.getD_eq_getElem _ _ h1).symm]
    rw [readStripe_getD _ _ _ _ hb]
    unfold typeIIITaDec
    rw [chunkFold_at _ cposTa Bta hw K k0 hk0 ta _ (by omega) (by omega)]
    rw [show ∀ t : Nat → Nat, cb_dec t (cposTa + k0 * Bta)
        (la k0 &&& compl32 (ind (cposInd + k0 * Bind + Bind - 1))) Bta
          (cposTa + k0 * Bta + b) =
        (cb_dec_list (readStripe t (cposTa + k0 * Bta) Bta)
          (la k0 &&& compl32 (ind (cposInd + k0 * Bind + Bind - 1)))).getD b 0 from
      fun t => cb_dec_at t _ _ _ _ hb]
    rw [readStripe_congr _ ta _ _ (fun b' hb' => hpre _ (by omega))]
    exact (List.getD_eq_getElem _ _ h2).symm ▸ rfl

theorem cb_inc_stripe_ge (t : Nat → Nat) (m m' a B i : Nat) :
    laneVal (readStripe t (m * B) B) i ≤
      laneVal (readStripe (cb_inc t (m' * B) a B) (m * B) B) i := by
  by_cases hm : m = m'
  · subst hm
    rw [readStripe_cb_inc]
    exact laneVal_cb_inc_list_ge _ _ _
  · rw [readStripe_congr (cb_inc t (m' * B) a B) t (m * B) B ?_]
    intro b hb
    apply cb_inc_frame
    rcases Nat.lt_or_ge m m' with h | h
    · left
      have h1 : (m + 1) * B ≤ m' * B := Nat.mul_le_mul_right _ (by omega)
      have h2 : (m + 1) * B = m * B + B := Nat.succ_mul m B
      omega
    · right
      have hm' : m' < m := by omega
      have h1 : (m' + 1) * B ≤ m * B := Nat.mul_le_mul_right _ (by omega)
      have h2 : (m' + 1) * B = m' * B + B := Nat.succ_mul m' B
      omega

theorem cb_dec_stripe_le (t : Nat → Nat) (m m' a B i : Nat) (hi : i < 32) :
    laneVal (readStripe (cb_dec t (m' * B) a B) (m * B) B) i ≤
      laneVal (readStripe t (m * B) B) i := by
  by_cases hm : m = m'
  · subst hm
    rw [readStripe_cb_dec]
    exact laneVal_cb_dec_list_le _ _ _ hi
  · rw [readStripe_congr (cb_dec t (m' * B) a B) t (m * B) B ?_]
    intro b hb
    apply cb_dec_frame
    rcases Nat.lt_or_ge m m' with h | h
    · left
      have h1 : (m + 1) * B ≤ m' * B := Nat.mul_le_mul_right _ (by omega)
      have h2 : (m + 1) * B = m * B + B := Nat.succ_mul m B
      omega
    · right
      have hm' : m' < m := by omega
      have h1 : (m' + 1) * B ≤ m * B := Nat.mul_le_mul_right _ (by omega)
      have h2 : (m' + 1) * B = m' * B + B := Nat.succ_mul m' B
      omega

/-- The Type II chunk loop never lowers any aligned counter stripe. -/
theorem typeIIBody_ge (ta : Nat → Nat) (c0 K B : Nat) (la Xi : Nat → Nat)
    (patch m i : Nat) (hi : i < 32) :
    laneVal (readStripe ta (m * B) B) i ≤
      laneVal (readStripe (typeIIBody ta (c0 * B) K B la Xi patch) (m * B) B) i := by
  unfold typeIIBody
  refine foldl_inv _ (fun t => laneVal (readStripe ta (m * B) B) i ≤
    laneVal (readStripe t (m * B) B) i) _ ta ?_ (le_refl _)
  intro t k hk hb
  refine le_trans hb ?_
  have hbase : c0 * B + k * B = (c0 + k) * B := (Nat.add_mul c0 k B).symm
  rw [show cb_inc t (c0 * B + k * B)
      (la k &&& compl32 (Xi (patch * K + k)) &&& compl32 (t (c0 * B + k * B + B - 1))) B =
    cb_inc t ((c0 + k) * B)
      (la k &&& compl32 (Xi (patch * K + k)) &&& compl32 (t (c0 * B + k * B + B - 1))) B from by
    rw [hbase]]
  exact cb_inc_stripe_ge t m (c0 + k) _ B i

/-- The Type Ib chunk loop never raises any aligned counter stripe. -/
theorem typeIbBody_le (ta : Nat → Nat) (c0 K B : Nat) (la ftt : Nat → Nat)
    (m i : Nat) (hi : i < 32) :
    laneVal (readStripe (typeIbBody ta (c0 * B) K B la ftt) (m * B) B) i ≤
      laneVal (readStripe ta (m * B) B) i := by
  unfold typeIbBody
  refine foldl_inv _ (fun t => laneVal (readStripe t (m * B) B) i ≤
    laneVal (readStripe ta (m * B) B) i) _ ta ?_ (le_refl _)
  intro t k hk hb
  refine le_trans ?_ hb
  have hbase : c0 * B + k * B = (c0 + k) * B := (Nat.add_mul c0 k B).symm
  rw [show cb_dec t (c0 * B + k * B) (la k &&& ftt k) B =
    cb_dec t ((c0 + k) * B) (la k &&& ftt k) B from by rw [hbase]]
  exact cb_dec_stripe_le t m (c0 + k) _ B i hi

theorem sflStep_id_lt {s : Bool × Bool × Nat} {off : Nat} (hoff : off < 2 ^ 32)
    (hs : s.2.1 = true → s.2.2 < 32) :
    (sflStep s off).2.1 = true → (sflStep s off).2.2 < 32 := by
  unfold sflStep
  split
  · exact hs
  · split
    · exact hs
    · split
      · split
        · intro _
          show clog2 _ < 32
          rw [clog2_eq]
          exact (Nat.log2_lt (by assumption)).mpr hoff
        · exact hs
      · exact hs

theorem sflNontail_id_lt (ta : Nat → Nat) (K B : Nat) (la Xi : Nat → Nat)
    (patch : Nat) (hta : ∀ p, ta p < 2 ^ 32) :
    (sflNontail ta K B la Xi patch).2.1 = true →
      (sflNontail ta K B la Xi patch).2.2 < 32 := by
  unfold sflNontail
  refine foldl_inv sflStep (fun s => s.2.1 = true → s.2.2 < 32) _ _ ?_ (by simp)
  · intro s off hmem hs
    have hoff : off < 2 ^ 32 := by
      obtain ⟨k, hk, hoffk⟩ := List.mem_map.mp hmem
      rw [← hoffk]
      unfold sflOffNontail
      exact Nat.xor_lt_two_pow (Nat.lt_of_le_of_lt Nat.and_le_left (hta _)) (hta _)
    exact sflStep_id_lt hoff hs

theorem sflNontail_K1 (ta : Nat → Nat) (B : Nat) (la Xi : Nat → Nat) (patch : Nat) :
    sflNontail ta 1 B la Xi patch = (true, false, 0) := rfl

/-- Every id collected by the single-offending-literal patch scan is below 32
(when the TA words are 32-bit and the filter is a 32-bit mask); with a single
chunk it is below the bit width `sigma` of the filter. -/
theorem sflCollect_bound (ta : Nat → Nat) (K B filter : Nat) (la Xi : Nat → Nat)
    (sigma : Nat) (hfil : filter < 2 ^ sigma) (hsig : sigma ≤ 32)
    (hta : ∀ p, ta p < 2 ^ 32) :
    ∀ (ps : List Nat) (id : Nat), id ∈ sflCollect ta K B filter la Xi ps →
      id < 32 ∧ (K = 1 → id < sigma) := by
  intro ps
  induction ps with
  | nil => intro id h; simp [sflCollect] at h
  | cons p rest ih =>
    intro id h
    have hofft : sflOffTail ta K B filter la Xi p < 2 ^ sigma := by
      unfold sflOffTail
      exact Nat.xor_lt_two_pow
        (Nat.lt_of_le_of_lt Nat.and_le_right hfil)
        (Nat.lt_of_le_of_lt Nat.and_le_right hfil)
    have hofft32 : sflOffTail ta K B filter la Xi p < 2 ^ 32 :=
      Nat.lt_of_lt_of_le hofft (Nat.pow_le_pow_right (by omega) hsig)
    rw [sflCollect] at h
    cases hscan : sflPatch ta K B filter la Xi p with
    | collect cid =>
      rw [hscan] at h
      dsimp only at h
      rcases List.mem_cons.mp h with h | h
      · subst h
        simp only [sflPatch] at hscan
        split at hscan
        · simp at hscan
        · split at hscan
          · split at hscan
            · split at hscan
              · simp only [PatchScan.collect.injEq] at hscan
                subst hscan
                rw [clog2_eq]
                refine ⟨(Nat.log2_lt (by assumption)).mpr hofft32, fun _ =>
                  (Nat.log2_lt (by assumption)).mpr hofft⟩
              · simp at hscan
            · simp at hscan
          · split at hscan
            · simp only [PatchScan.collect.injEq] at hscan
              subst hscan
              rename_i hofft0 hand
              constructor
              · exact sflNontail_id_lt ta K B la Xi p hta (Bool.and_elim_right hand)
              · intro hK1
                rw [hK1, sflNontail_K1] at hand
                simp at hand
            · simp at hscan
      · exact ih id h
    | skip =>
      rw [hscan] at h
      dsimp only at h
      exact ih id h
    | stop =>
      rw [hscan] at h
      dsimp only at h
      simp at h

theorem sfl_mem (stream : Nat → Nat) (ta : Nat → Nat) (K B filter P : Nat)
    (la Xi : Nat → Nat) (r : Nat) :
    (cb_calculate_clause_output_single_false_literal stream ta K B filter P la Xi r).1 = -1 ∨
      ∃ id ∈ sflCollect ta K B filter la Xi (List.range P),
        (cb_calculate_clause_output_single_false_literal stream ta K B filter P la Xi r).1 =
          Int.ofNat id := by
  simp only [cb_calculate_clause_output_single_false_literal]
  split
  · rename_i hlen
    right
    have hlt : stream r % (sflCollect ta K B filter la Xi (List.range P)).length <
        (sflCollect ta K B filter la Xi (List.range P)).length := Nat.mod_lt _ hlen
    refine ⟨(sflCollect ta K B filter la Xi (List.range P)).getD
      (stream r % (sflCollect ta K B filter la Xi (List.range P)).length) 0, ?_, rfl⟩
    rw [List.getD_eq_getElem _ _ hlt]
    exact List.getElem_mem _
  · left; rfl

theorem typeIClauseStep_inactive (stream : Nat → Nat) (updGate : Nat → Bool)
    (initStreams : Nat → (Nat → Nat) × Nat) (K B P filter boost : Nat)
    (clause_active la Xi : Nat → Nat) (s : Bank × Nat) (j : Nat)
    (h : clause_active j = 0) :
    typeIClauseStep stream updGate initStreams K B P filter boost clause_active la Xi s j =
      (s.1, s.2 + 1) := by
  simp only [typeIClauseStep]
  rw [if_pos]
  simp [h]

theorem typeIIClauseStep_inactive (stream : Nat → Nat) (updGate : Nat → Bool)
    (K B P filter : Nat) (clause_active la Xi : Nat → Nat) (s : Bank × Nat) (j : Nat)
    (h : clause_active j = 0) :
    typeIIClauseStep stream updGate K B P filter clause_active la Xi s j =
      (s.1, s.2 + 1) := by
  simp only [typeIIClauseStep]
  rw [if_pos]
  simp [h]

theorem typeIIIClauseStep_inactive (stream : Nat → Nat) (updGate dGate : Nat → Bool)
    (K Bta Bind P filter target : Nat) (clause_active la Xi : Nat → Nat)
    (s : Bank × Nat) (j : Nat) (h : clause_active j = 0) :
    typeIIIClauseStep stream updGate dGate K Bta Bind P filter target
      clause_active la Xi s j = s := by
  simp only [typeIIIClauseStep]
  rw [if_pos]
  simp [h]

theorem typeIClauseStep_ind_cat (stream : Nat → Nat) (updGate : Nat → Bool)
    (initStreams : Nat → (Nat → Nat) × Nat) (K B P filter boost : Nat)
    (clause_active la Xi : Nat → Nat) (s : Bank × Nat) (j : Nat) :
    (typeIClauseStep stream updGate initStreams K B P filter boost
        clause_active la Xi s j).1.ind = s.1.ind ∧
      (typeIClauseStep stream updGate initStreams K B P filter boost
        clause_active la Xi s j).1.cat = s.1.cat := by
  simp only [typeIClauseStep]
  split
  · exact ⟨rfl, rfl⟩
  · split <;> exact ⟨rfl, rfl⟩

theorem typeIIClauseStep_ind_cat (stream : Nat → Nat) (updGate : Nat → Bool)
    (K B P filter : Nat) (clause_active la Xi : Nat → Nat) (s : Bank × Nat) (j : Nat) :
    (typeIIClauseStep stream updGate K B P filter clause_active la Xi s j).1.ind =
        s.1.ind ∧
      (typeIIClauseStep stream updGate K B P filter clause_active la Xi s j).1.cat =
        s.1.cat := by
  simp only [typeIIClauseStep]
  split
  · exact ⟨rfl, rfl⟩
  · split <;> exact ⟨rfl, rfl⟩

theorem typeIClauseStep_ta_frame (stream : Nat → Nat) (updGate : Nat → Bool)
    (initStreams : Nat → (Nat → Nat) × Nat) (K B P filter boost : Nat)
    (clause_active la Xi : Nat → Nat) (s : Bank × Nat) (j p : Nat)
    (hp : p < j * K * B ∨ j * K * B + K * B ≤ p) :
    (typeIClauseStep stream updGate initStreams K B P filter boost
      clause_active la Xi s j).1.ta p = s.1.ta p := by
  simp only [typeIClauseStep]
  split
  · rfl
  · split
    · exact typeIaBody_frame _ _ _ _ _ _ _ _ _ _ hp
    · exact typeIbBody_frame _ _ _ _ _ _ _ hp

theorem typeIIClauseStep_ta_frame (stream : Nat → Nat) (updGate : Nat → Bool)
    (K B P filter : Nat) (clause_active la Xi : Nat → Nat) (s : Bank × Nat) (j p : Nat)
    (hp : p < j * K * B ∨ j * K * B + K * B ≤ p) :
    (typeIIClauseStep stream updGate K B P filter clause_active la Xi s j).1.ta p =
      s.1.ta p := by
  simp only [typeIIClauseStep]
  split
  · rfl
  · split
    · exact typeIIBody_frame _ _ _ _ _ _ _ _ hp
    · rfl

theorem typeIIIClauseStep_ta_frame (stream : Nat → Nat) (updGate dGate : Nat → Bool)
    (K Bta Bind P filter target : Nat) (clause_active la Xi : Nat → Nat)
    (s : Bank × Nat) (j p : Nat)
    (hp : p < j * K * Bta ∨ j * K * Bta + K * Bta ≤ p) :
    (typeIIIClauseStep stream updGate dGate K Bta Bind P filter target
      clause_active la Xi s j).1.ta p = s.1.ta p := by
  simp only [typeIIIClauseStep]
  by_cases hact : (clause_active j == 0) = true
  · rw [if_pos hact]
  · rw [if_neg hact]
    cases hev : (cb_calculate_clause_output_feedback stream
        (fun q => s.1.ta (j * K * Bta + q)) K Bta filter P la Xi s.2).1 with
    | some patch =>
      dsimp only
      repeat' split
      all_goals first
        | rfl
        | exact typeIIITaDec_frame _ _ _ _ _ _ _ _ _ hp
    | none =>
      dsimp only
      repeat' split
      all_goals first
        | rfl
        | exact typeIIITaDec_frame _ _ _ _ _ _ _ _ _ hp

theorem typeIIIClauseStep_ind_frame (stream : Nat → Nat) (updGate dGate : Nat → Bool)
    (K Bta Bind P filter target : Nat) (clause_active la Xi : Nat → Nat)
    (s : Bank × Nat) (j p : Nat)
    (hp : p < j * K * Bind ∨ j * K * Bind + K * Bind ≤ p) :
    (typeIIIClauseStep stream updGate dGate K Bta Bind P filter target
      clause_active la Xi s j).1.ind p = s.1.ind p := by
  simp only [typeIIIClauseStep]
  by_cases hact : (clause_active j == 0) = true
  · rw [if_pos hact]
  · rw [if_neg hact]
    cases hev : (cb_calculate_clause_output_feedback stream
        (fun q => s.1.ta (j * K * Bta + q)) K Bta filter P la Xi s.2).1 with
    | some patch =>
      dsimp only
      repeat' split
      all_goals first
        | rfl
        | (show typeIIIIndDec _ (j * K * Bind) K Bind _ _ _ _ _ p = s.1.ind p
           rw [typeIIIIndDec_frame _ _ _ _ _ _ _ _ _ _ hp]
           try first
             | rfl
             | exact typeIIIIndInc_frame _ _ _ _ _ _ _ _ _ _ hp)
    | none =>
      dsimp only
      repeat' split
      all_goals rfl

theorem typeIIIClauseStep_cat_frame (stream : Nat → Nat) (updGate dGate : Nat → Bool)
    (K Bta Bind P filter target : Nat) (clause_active la Xi : Nat → Nat)
    (s : Bank × Nat) (j p : Nat)
    (hta : ∀ q, s.1.ta q < 2 ^ 32) (hfil : filter < 2 ^ 32) (hK : 0 < K)
    (hp : p < j * K ∨ j * K + K ≤ p) :
    (typeIIIClauseStep stream updGate dGate K Bta Bind P filter target
      clause_active la Xi s j).1.cat p = s.1.cat p := by
  have hidx : ∀ r ol, ol = (cb_calculate_clause_output_single_false_literal stream
      (fun q => s.1.ta (j * K * Bta + q)) K Bta filter P la Xi r).1 → ol ≠ -1 →
      p ≠ j * K + ol.toNat / 32 := by
    intro r ol hol hne
    rcases sfl_mem stream (fun q => s.1.ta (j * K * Bta + q)) K Bta filter P la Xi r with
      h | ⟨id, hmem, hid⟩
    · rw [hol] at hne; exact absurd h hne
    · have hb := (sflCollect_bound (fun q => s.1.ta (j * K * Bta + q)) K Bta filter la Xi
        32 hfil (le_refl _) (fun q => hta _) (List.range P) id hmem).1
      rw [hol, hid]
      have : (Int.ofNat id).toNat = id := rfl
      rw [this]
      have : id / 32 = 0 := Nat.div_eq_of_lt hb
      rw [this]
      omega
  simp only [typeIIIClauseStep]
  by_cases hact : (clause_active j == 0) = true
  · rw [if_pos hact]
  · rw [if_neg hact]
    cases hev : (cb_calculate_clause_output_feedback stream
        (fun q => s.1.ta (j * K * Bta + q)) K Bta filter P la Xi s.2).1 with
    | some patch =>
      dsimp only
      repeat' split
      all_goals
        exact catInvert_frame _ _ _ _ _ hp
    | none =>
      dsimp only
      repeat' split
      all_goals first
        | rfl
        | (show updF _ _ _ p = s.1.cat p
           unfold updF
           rw [if_neg (hidx _ _ rfl (by assumption))])

theorem region_disjoint {j j' W p : Nat} (hne : j' ≠ j)
    (h1 : j * W ≤ p) (h2 : p < j * W + W) :
    p < j' * W ∨ j' * W + W ≤ p := by
  rcases Nat.lt_or_ge j j' with h | h
  · left
    have hmul : (j + 1) * W ≤ j' * W := Nat.mul_le_mul_right _ (by omega)
    have hs : (j + 1) * W = j * W + W := Nat.succ_mul _ _
    omega
  · have hj'j : j' < j := by omega
    right
    have hmul : (j' + 1) * W ≤ j * W := Nat.mul_le_mul_right _ (by omega)
    have hs : (j' + 1) * W = j' * W + W := Nat.succ_mul _ _
    omega

theorem cb_type_i_feedback_all_inactive (stream : Nat → Nat) (updGate : Nat → Bool)
    (initStreams : Nat → (Nat → Nat) × Nat) (C F B P boost : Nat)
    (clause_active la Xi : Nat → Nat) (st : Bank) (r : Nat)
    (h : ∀ j, j < C → clause_active j = 0) :
    cb_type_i_feedback stream updGate initStreams C F B P boost
      clause_active la Xi st r = (st, r + C) := by
  induction C with
  | zero => rfl
  | succ C ih =>
    unfold cb_type_i_feedback at ih ⊢
    rw [List.range_succ, List.foldl_append, List.foldl_cons, List.foldl_nil]
    rw [ih (fun j hj => h j (by omega))]
    rw [typeIClauseStep_inactive _ _ _ _ _ _ _ _ _ _ _ _ _ (h C (by omega))]
    rfl

theorem cb_type_ii_feedback_all_inactive (stream : Nat → Nat) (updGate : Nat → Bool)
    (C F B P : Nat) (clause_active la Xi : Nat → Nat) (st : Bank) (r : Nat)
    (h : ∀ j, j < C → clause_active j = 0) :
    cb_type_ii_feedback stream updGate C F B P clause_active la Xi st r = (st, r + C) := by
  induction C with
  | zero => rfl
  | succ C ih =>
    unfold cb_type_ii_feedback at ih ⊢
    rw [List.range_succ, List.foldl_append, List.foldl_cons, List.foldl_nil]
    rw [ih (fun j hj => h j (by omega))]
    rw [typeIIClauseStep_inactive _ _ _ _ _ _ _ _ _ _ _ (h C (by omega))]
    rfl

theorem cb_type_iii_feedback_all_inactive (stream : Nat → Nat) (updGate dGate : Nat → Bool)
    (C F Bta Bind P target : Nat) (clause_active la Xi : Nat → Nat) (st : Bank) (r : Nat)
    (h : ∀ j, j < C → clause_active j = 0) :
    cb_type_iii_feedback stream updGate dGate C F Bta Bind P target
      clause_active la Xi st r = (st, r) := by
  induction C with
  | zero => rfl
  | succ C ih =>
    unfold cb_type_iii_feedback at ih ⊢
    rw [List.range_succ, List.foldl_append, List.foldl_cons, List.foldl_nil]
    rw [ih (fun j hj => h j (by omega))]
    rw [typeIIIClauseStep_inactive _ _ _ _ _ _ _ _ _ _ _ _ _ _ (h C (by omega))]

theorem cb_type_i_feedback_ind_cat (stream : Nat → Nat) (updGate : Nat → Bool)
    (initStreams : Nat → (Nat → Nat) × Nat) (C F B P boost : Nat)
    (clause_active la Xi : Nat → Nat) (st : Bank) (r : Nat) :
    (cb_type_i_feedback stream updGate initStreams C F B P boost
        clause_active la Xi st r).1.ind = st.ind ∧
      (cb_type_i_feedback stream updGate initStreams C F B P boost
        clause_active la Xi st r).1.cat = st.cat := by
  unfold cb_type_i_feedback
  refine foldl_inv _ (fun s => s.1.ind = st.ind ∧ s.1.cat = st.cat) _ (st, r) ?_ ⟨rfl, rfl⟩
  intro s j hj hs
  obtain ⟨g1, g2⟩ := typeIClauseStep_ind_cat stream updGate initStreams (numChunks F) B P
    (mkFilter F) boost clause_active la Xi s j
  exact ⟨g1.trans hs.1, g2.trans hs.2⟩

theorem cb_type_ii_feedback_ind_cat (stream : Nat → Nat) (updGate : Nat → Bool)
    (C F B P : Nat) (clause_active la Xi : Nat → Nat) (st : Bank) (r : Nat) :
    (cb_type_ii_feedback stream updGate C F B P clause_active la Xi st r).1.ind = st.ind ∧
      (cb_type_ii_feedback stream updGate C F B P clause_active la Xi st r).1.cat =
        st.cat := by
  unfold cb_type_ii_feedback
  refine foldl_inv _ (fun s => s.1.ind = st.ind ∧ s.1.cat = st.cat) _ (st, r) ?_ ⟨rfl, rfl⟩
  intro s j hj hs
  obtain ⟨g1, g2⟩ := typeIIClauseStep_ind_cat stream updGate (numChunks F) B P
    (mkFilter F) clause_active la Xi s j
  exact ⟨g1.trans hs.1, g2.trans hs.2⟩

theorem cb_type_ii_feedback_ge (stream : Nat → Nat) (updGate : Nat → Bool)
    (C F B P : Nat) (clause_active la Xi : Nat → Nat) (st : Bank) (r : Nat)
    (m i : Nat) (hi : i < 32) :
    laneVal (readStripe st.ta (m * B) B) i ≤
      laneVal (readStripe
        (cb_type_ii_feedback stream updGate C F B P clause_active la Xi st r).1.ta
        (m * B) B) i := by
  unfold cb_type_ii_feedback
  refine foldl_inv _ (fun s => laneVal (readStripe st.ta (m * B) B) i ≤
    laneVal (readStripe s.1.ta (m * B) B) i) _ (st, r) ?_ (le_refl _)
  intro s j hj hs
  refine le_trans hs ?_
  simp only [typeIIClauseStep]
  split
  · exact le_refl _
  · split
    · exact typeIIBody_ge s.1.ta (j * numChunks F) (numChunks F) B la Xi _ m i hi
    · exact le_refl _

theorem cb_dec_planes_bound : ∀ (col : List Nat) (carry : Nat), carry < 2 ^ 32 →
    (∀ m, col.getD m 0 < 2 ^ 32) →
    ∀ m, (cb_dec_planes col carry).1.getD m 0 < 2 ^ 32 := by
  intro col
  induction col with
  | nil => intro carry _ hcol m; exact hcol m
  | cons w ws ih =>
    intro carry hc hcol m
    simp only [cb_dec_planes]
    split
    · exact hcol m
    · cases m with
      | zero =>
        simp only [List.getD_cons_zero]
        exact Nat.xor_lt_two_pow (hcol 0) hc
      | succ m =>
        simp only [List.getD_cons_succ]
        refine ih _ (Nat.lt_of_le_of_lt Nat.and_le_right hc) (fun m' => ?_) m
        have := hcol (m' + 1)
        simpa using this

theorem cb_dec_list_bound (col : List Nat) (active : Nat) (ha : active < 2 ^ 32)
    (hcol : ∀ m, col.getD m 0 < 2 ^ 32) :
    ∀ m, (cb_dec_list col active).getD m 0 < 2 ^ 32 := by
  intro m
  have hp := cb_dec_planes_bound col active ha hcol
  simp only [cb_dec_list]
  split
  · by_cases hm : m < (cb_dec_planes col active).1.length
    · have hm' : m < ((cb_dec_planes col active).1.map
          (fun w => w &&& compl32 (cb_dec_planes col active).2)).length := by simpa using hm
      rw [List.getD_eq_getElem _ _ hm', List.getElem_map]
      refine Nat.lt_of_le_of_lt Nat.and_le_left ?_
      rw [← List.getD_eq_getElem _ _ hm]
      exact hp m
    · have hm2 : ((cb_dec_planes col active).1.map
          (fun w => w &&& compl32 (cb_dec_planes col active).2)).length ≤ m := by
        simpa using Nat.le_of_not_lt hm
      rw [List.getD_eq_default _ _ hm2]
      omega
  · exact hp m

theorem cb_dec_bound (ta : Nat → Nat) (base active B : Nat) (ha : active < 2 ^ 32)
    (hta : ∀ q, ta q < 2 ^ 32) : ∀ q, cb_dec ta base active B q < 2 ^ 32 := by
  intro q
  by_cases hq : base ≤ q ∧ q < base + B
  · have hb : q - base < B := by omega
    have hqe : q = base + (q - base) := by omega
    rw [hqe, cb_dec_at _ _ _ _ _ hb]
    refine cb_dec_list_bound _ _ ha (fun m => ?_) _
    by_cases hm : m < B
    · rw [readStripe_getD _ _ _ _ hm]; exact hta _
    · rw [List.getD_eq_default]
      · omega
      · simpa [readStripe_length] using Nat.le_of_not_lt hm
  · rw [cb_dec_frame _ _ _ _ _ (by omega)]
    exact hta q

theorem typeIIITaDec_bound (ta ind : Nat → Nat) (cposTa cposInd K Bta Bind : Nat)
    (la : Nat → Nat) (hla : ∀ k, la k < 2 ^ 32) (hta : ∀ q, ta q < 2 ^ 32) :
    ∀ q, typeIIITaDec ta ind cposTa cposInd K Bta Bind la q < 2 ^ 32 := by
  unfold typeIIITaDec
  refine foldl_inv _ (fun t => ∀ q, t q < 2 ^ 32) _ ta ?_ hta
  intro t k hk ht q
  exact cb_dec_bound _ _ _ _ (Nat.lt_of_le_of_lt Nat.and_le_left (hla k)) ht q

theorem typeIIIClauseStep_ta_bound (stream : Nat → Nat) (updGate dGate : Nat → Bool)
    (K Bta Bind P filter target : Nat) (clause_active la Xi : Nat → Nat)
    (s : Bank × Nat) (j : Nat) (hla : ∀ k, la k < 2 ^ 32)
    (hta : ∀ q, s.1.ta q < 2 ^ 32) :
    ∀ q, (typeIIIClauseStep stream updGate dGate K Bta Bind P filter target
      clause_active la Xi s j).1.ta q < 2 ^ 32 := by
  simp only [typeIIIClauseStep]
  by_cases hact : (clause_active j == 0) = true
  · rw [if_pos hact]; exact hta
  · rw [if_neg hact]
    cases hev : (cb_calculate_clause_output_feedback stream
        (fun q => s.1.ta (j * K * Bta + q)) K Bta filter P la Xi s.2).1 with
    | some patch =>
      dsimp only
      repeat' split
      all_goals first
        | exact hta
        | exact typeIIITaDec_bound _ _ _ _ _ _ _ _ hla hta
    | none =>
      dsimp only
      repeat' split
      all_goals first
        | exact hta
        | exact typeIIITaDec_bound _ _ _ _ _ _ _ _ hla hta

theorem cb_type_i_feedback_clause_frame (stream : Nat → Nat) (updGate : Nat → Bool)
    (initStreams : Nat → (Nat → Nat) × Nat) (C F B P boost : Nat)
    (clause_active la Xi : Nat → Nat) (st : Bank) (r : Nat) (j p : Nat)
    (hj : clause_active j = 0)
    (h1 : j * (numChunks F * B) ≤ p) (h2 : p < j * (numChunks F * B) + numChunks F * B) :
    (cb_type_i_feedback stream updGate initStreams C F B P boost
      clause_active la Xi st r).1.ta p = st.ta p := by
  unfold cb_type_i_feedback
  refine foldl_inv _ (fun s => s.1.ta p = st.ta p) _ (st, r) ?_ rfl
  intro s j' hj' hs
  by_cases hEq : j' = j
  · subst hEq
    rw [typeIClauseStep_inactive _ _ _ _ _ _ _ _ _ _ _ _ _ hj]
    exact hs
  · rw [typeIClauseStep_ta_frame _ _ _ _ _ _ _ _ _ _ _ _ _ _ ?_]
    · exact hs
    · have e2 : j' * numChunks F * B = j' * (numChunks F * B) := Nat.mul_assoc _ _ _
      rw [e2]
      exact region_disjoint hEq h1 h2

theorem cb_type_ii_feedback_clause_frame (stream : Nat → Nat) (updGate : Nat → Bool)
    (C F B P : Nat) (clause_active la Xi : Nat → Nat) (st : Bank) (r : Nat) (j p : Nat)
    (hj : clause_active j = 0)
    (h1 : j * (numChunks F * B) ≤ p) (h2 : p < j * (numChunks F * B) + numChunks F * B) :
    (cb_type_ii_feedback stream updGate C F B P clause_active la Xi st r).1.ta p =
      st.ta p := by
  unfold cb_type_ii_feedback
  refine foldl_inv _ (fun s => s.1.ta p = st.ta p) _ (st, r) ?_ rfl
  intro s j' hj' hs
  by_cases hEq : j' = j
  · subst hEq
    rw [typeIIClauseStep_inactive _ _ _ _ _ _ _ _ _ _ _ hj]
    exact hs
  · rw [typeIIClauseStep_ta_frame _ _ _ _ _ _ _ _ _ _ _ _ ?_]
    · exact hs
    · have e2 : j' * numChunks F * B = j' * (numChunks F * B) := Nat.mul_assoc _ _ _
      rw [e2]
      exact region_disjoint hEq h1 h2

theorem cb_type_iii_feedback_clause_frame (stream : Nat → Nat) (updGate dGate : Nat → Bool)
    (C F Bta Bind P target : Nat) (clause_active la Xi : Nat → Nat) (st : Bank) (r : Nat)
    (j : Nat) (hj : clause_active j = 0)
    (hla : ∀ k, la k < 2 ^ 32) (hta : ∀ q, st.ta q < 2 ^ 32) (hK : 0 < numChunks F) :
    (∀ p, j * (numChunks F * Bta) ≤ p → p < j * (numChunks F * Bta) + numChunks F * Bta →
      (cb_type_iii_feedback stream updGate dGate C F Bta Bind P target
        clause_active la Xi st r).1.ta p = st.ta p) ∧
    (∀ p, j * (numChunks F * Bind) ≤ p → p < j * (numChunks F * Bind) + numChunks F * Bind →
      (cb_type_iii_feedback stream updGate dGate C F Bta Bind P target
        clause_active la Xi st r).1.ind p = st.ind p) ∧
    (∀ p, j * numChunks F ≤ p → p < j * numChunks F + numChunks F →
      (cb_type_iii_feedback stream updGate dGate C F Bta Bind P target
        clause_active la Xi st r).1.cat p = st.cat p) := by
  unfold cb_type_iii_feedback
  have main := foldl_inv
    (typeIIIClauseStep stream updGate dGate (numChunks F) Bta Bind P (mkFilter F) target
      clause_active la Xi)
    (fun s => (∀ q, s.1.ta q < 2 ^ 32) ∧
      (∀ p, j * (numChunks F * Bta) ≤ p → p < j * (numChunks F * Bta) + numChunks F * Bta →
        s.1.ta p = st.ta p) ∧
      (∀ p, j * (numChunks F * Bind) ≤ p → p < j * (numChunks F * Bind) + numChunks F * Bind →
        s.1.ind p = st.ind p) ∧
      (∀ p, j * numChunks F ≤ p → p < j * numChunks F + numChunks F →
        s.1.cat p = st.cat p))
    (List.range C) (st, r) ?_ ⟨hta, fun _ _ _ => rfl, fun _ _ _ => rfl, fun _ _ _ => rfl⟩
  · exact ⟨main.2.1, main.2.2.1, main.2.2.2⟩
  · intro s j' hj' hs
    obtain ⟨hsb, hsta, hsind, hscat⟩ := hs
    by_cases hEq : j' = j
    · subst hEq
      rw [typeIIIClauseStep_inactive _ _ _ _ _ _ _ _ _ _ _ _ _ _ hj]
      exact ⟨hsb, hsta, hsind, hscat⟩
    · refine ⟨typeIIIClauseStep_ta_bound _ _ _ _ _ _ _ _ _ _ _ _ _ _ hla hsb, ?_, ?_, ?_⟩
      · intro p hp1 hp2
        rw [typeIIIClauseStep_ta_frame _ _ _ _ _ _ _ _ _ _ _ _ _ _ _ ?_]
        · exact hsta p hp1 hp2
        · have e2 : j' * numChunks F * Bta = j' * (numChunks F * Bta) := Nat.mul_assoc _ _ _
          rw [e2]
          exact region_disjoint hEq hp1 hp2
      · intro p hp1 hp2
        rw [typeIIIClauseStep_ind_frame _ _ _ _ _ _ _ _ _ _ _ _ _ _ _ ?_]
        · exact hsind p hp1 hp2
        · have e2 : j' * numChunks F * Bind = j' * (numChunks F * Bind) := Nat.mul_assoc _ _ _
          rw [e2]
          exact region_disjoint hEq hp1 hp2
      · intro p hp1 hp2
        rw [typeIIIClauseStep_cat_frame _ _ _ _ _ _ _ _ _ _ _ _ _ _ _ hsb (mkFilter_lt F) hK ?_]
        · exact hscat p hp1 hp2
        · exact region_disjoint hEq hp1 hp2

theorem list_all_congr {l : List Nat} {f g : Nat → Bool} (h : ∀ x ∈ l, f x = g x) :
    l.all f = l.all g := by
  induction l with
  | nil => rfl
  | cons a as ih =>
    simp only [List.all_cons]
    rw [h a (List.mem_cons_self _ _), ih (fun x hx => h x (List.mem_cons_of_mem _ hx))]

theorem list_any_congr {l : List Nat} {f g : Nat → Bool} (h : ∀ x ∈ l, f x = g x) :
    l.any f = l.any g := by
  induction l with
  | nil => rfl
  | cons a as ih =>
    simp only [List.any_cons]
    rw [h a (List.mem_cons_self _ _), ih (fun x hx => h x (List.mem_cons_of_mem _ hx))]

theorem list_filter_congr {l : List Nat} {f g : Nat → Bool} (h : ∀ x ∈ l, f x = g x) :
    l.filter f = l.filter g := by
  induction l with
  | nil => rfl
  | cons a as ih =>
    simp only [List.filter_cons]
    rw [h a (List.mem_cons_self _ _), ih (fun x hx => h x (List.mem_cons_of_mem _ hx))]

theorem and_swap_right (a x f : Nat) : a &&& x &&& f = a &&& f &&& x := by
  rw [Nat.and_assoc, Nat.and_comm x f, ← Nat.and_assoc]

/-- C9: for every F, two banks whose ta_state words agree on every bit at
literal positions below F (every plane of every chunk) and differ only at
positions at or above F in the tail chunk produce identical outputs from
every evaluation mode — PredictEval, UpdateEval, PatchwiseEval, and the
Feedback-mode clause output (including the chosen patch, under the same PRNG
stream) — because the tail chunk comparison is masked on both sides by
`filter = mkFilter F`, the word whose low `F mod 32` bits are ones (all-ones
when `F mod 32 = 0`, theorem mkFilter_eq). -/
theorem c9_tail_masking (stream : Nat → Nat) (ta1 ta2 : Nat → Nat) (F B P : Nat)
    (la Xi : Nat → Nat) (r : Nat) (hF : 0 < F) (hB : 0 < B)
    (hb1 : ∀ q, ta1 q < 2 ^ 32) (hb2 : ∀ q, ta2 q < 2 ^ 32)
    (hagree : ∀ k b i, k < numChunks F → b < B → i < 32 → 32 * k + i < F →
      (ta1 (k * B + b)).testBit i = (ta2 (k * B + b)).testBit i) :
    cb_calculate_clause_output_predict ta1 (numChunks F) B (mkFilter F) P Xi =
        cb_calculate_clause_output_predict ta2 (numChunks F) B (mkFilter F) P Xi ∧
      cb_calculate_clause_output_update ta1 (numChunks F) B (mkFilter F) P la Xi =
        cb_calculate_clause_output_update ta2 (numChunks F) B (mkFilter F) P la Xi ∧
      (∀ patch,
        cb_calculate_clause_output_patchwise ta1 (numChunks F) B (mkFilter F) Xi patch =
          cb_calculate_clause_output_patchwise ta2 (numChunks F) B (mkFilter F) Xi patch) ∧
      cb_calculate_clause_output_feedback stream ta1 (numChunks F) B (mkFilter F) P la Xi r =
        cb_calculate_clause_output_feedback stream ta2 (numChunks F) B (mkFilter F) P la Xi r := by
  have hq : numChunks F - 1 = (F - 1) / 32 := by simp [numChunks]
  have hdiv : 32 * ((F - 1) / 32) ≤ F - 1 := by
    have := Nat.div_mul_le_self (F - 1) 32
    omega
  have hpos : ∀ b, b < B → b = B - 1 → True := fun _ _ _ => trivial
  -- non-tail action words are fully below F, hence equal
  have hnt : ∀ k, k < numChunks F - 1 → ta1 (k * B + B - 1) = ta2 (k * B + B - 1) := by
    intro k hk
    have hpe : k * B + B - 1 = k * B + (B - 1) := by omega
    rw [hpe]
    apply Nat.eq_of_testBit_eq
    intro i
    by_cases hi : i < 32
    · refine hagree k (B - 1) i (by omega) (by omega) hi ?_
      rw [hq] at hk
      omega
    · have h1 : ta1 (k * B + (B - 1)) < 2 ^ i :=
        Nat.lt_of_lt_of_le (hb1 _) (Nat.pow_le_pow_right (by omega) (by omega))
      have h2 : ta2 (k * B + (B - 1)) < 2 ^ i :=
        Nat.lt_of_lt_of_le (hb2 _) (Nat.pow_le_pow_right (by omega) (by omega))
      rw [Nat.testBit_lt_two_pow h1, Nat.testBit_lt_two_pow h2]
  -- the filtered tail action words are equal
  have htail : ta1 ((numChunks F - 1) * B + B - 1) &&& mkFilter F =
      ta2 ((numChunks F - 1) * B + B - 1) &&& mkFilter F := by
    have hpe : (numChunks F - 1) * B + B - 1 = (numChunks F - 1) * B + (B - 1) := by omega
    rw [hpe]
    apply Nat.eq_of_testBit_eq
    intro i
    by_cases hi : i < 32
    · rw [Nat.testBit_and, Nat.testBit_and]
      cases hf : (mkFilter F).testBit i
      · simp
      · have hlt : 32 * (numChunks F - 1) + i < F := by
          have := mkFilter_testBit F i hF hi
          rw [hf] at this
          exact of_decide_eq_true this.symm
        rw [hagree (numChunks F - 1) (B - 1) i (by simp [numChunks]) (by omega) hi hlt]
    · have h1 : ta1 ((numChunks F - 1) * B + (B - 1)) &&& mkFilter F < 2 ^ i :=
        Nat.lt_of_lt_of_le (Nat.and_lt_two_pow _ (mkFilter_lt F))
          (Nat.pow_le_pow_right (by omega) (by omega))
      have h2 : ta2 ((numChunks F - 1) * B + (B - 1)) &&& mkFilter F < 2 ^ i :=
        Nat.lt_of_lt_of_le (Nat.and_lt_two_pow _ (mkFilter_lt F))
          (Nat.pow_le_pow_right (by omega) (by omega))
      rw [Nat.testBit_lt_two_pow h1, Nat.testBit_lt_two_pow h2]
  -- boolean tail comparisons coincide for any per-patch input word X
  have htl : ∀ X : Nat,
      (ta1 ((numChunks F - 1) * B + B - 1) &&& X &&& mkFilter F ==
        ta1 ((numChunks F - 1) * B + B - 1) &&& mkFilter F) =
      (ta2 ((numChunks F - 1) * B + B - 1) &&& X &&& mkFilter F ==
        ta2 ((numChunks F - 1) * B + B - 1) &&& mkFilter F) := by
    intro X
    rw [and_swap_right (ta1 _) X _, and_swap_right (ta2 _) X _, htail]
  have hfb : ∀ patch, fbPatchMatch ta1 (numChunks F) B (mkFilter F) la Xi patch =
      fbPatchMatch ta2 (numChunks F) B (mkFilter F) la Xi patch := by
    intro patch
    unfold fbPatchMatch
    rw [list_all_congr (fun k hk => by
      rw [hnt k (List.mem_range.mp hk)]), htl]
  have hx : ∀ patch, xPatchMatch ta1 (numChunks F) B (mkFilter F) Xi patch =
      xPatchMatch ta2 (numChunks F) B (mkFilter F) Xi patch := by
    intro patch
    unfold xPatchMatch
    rw [list_all_congr (fun k hk => by
      rw [hnt k (List.mem_range.mp hk)]), htl]
  have hae : allExclude ta1 (numChunks F) B (mkFilter F) =
      allExclude ta2 (numChunks F) B (mkFilter F) := by
    unfold allExclude
    rw [list_all_congr (fun k hk => by
      rw [hnt k (List.mem_range.mp hk)]), htail]
  refine ⟨?_, ?_, ?_, ?_⟩
  · unfold cb_calculate_clause_output_predict
    rw [list_any_congr (fun patch _ => by rw [hx patch, hae])]
  · unfold cb_calculate_clause_output_update
    rw [list_any_congr (fun patch _ => hfb patch)]
  · intro patch
    unfold cb_calculate_clause_output_patchwise
    rw [hx patch]
  · unfold cb_calculate_clause_output_feedback
    rw [list_filter_congr (fun patch _ => hfb patch)]

/-- C1: the claim states that the per-chunk input of the UpdateEval and
Feedback-mode match test is `Xi[p,k] | ~literal_active[k]` with the BITWISE
complement, so a literal masked out by literal_active can never make the
chunk comparison fail.  The code instead writes the C LOGICAL negation
`!literal_active[k]` (ClauseBank.c lines 107, 116, 196, 205), which is 0
whenever the literal_active word is nonzero.  At the concrete input K=1,
B=2, filter=3 (F=2), P=1, action plane word 0b10 (literal 1 included),
literal_active word 0b01 (bit 1 clear: literal 1 masked out), Xi = 0, the
code's match test fails and UpdateEval returns 0, while the specified
bitwise test (`specPatchMatch`, modelled from the spec's words) succeeds:
the masked-out included literal DOES make the comparison fail, contradicting
the claim.  The same-file search routine
cb_calculate_clause_output_single_false_literal uses the bitwise complement
(line 146), and the spec notes callers rely on masked-out literals being
treated as satisfied, so the logical negation is a slip in the code. -/
theorem c1_update_uses_logical_not :
    ((fun _ : Nat => (1:Nat)) 0).testBit 1 = false ∧
    ((fun p : Nat => if p = 1 then (2:Nat) else 0) 1).testBit 1 = true ∧
    cb_calculate_clause_output_update (fun p => if p = 1 then 2 else 0) 1 2 3 1
        (fun _ => 1) (fun _ => 0) = 0 ∧
    fbPatchMatch (fun p => if p = 1 then 2 else 0) 1 2 3 (fun _ => 1) (fun _ => 0) 0 =
        false ∧
    specPatchMatch (fun p => if p = 1 then 2 else 0) 1 2 3 (fun _ => 1) (fun _ => 0) 0 =
        true := by
  refine ⟨by decide, by decide, by decide, by decide, by decide⟩

/-- C5: PredictEval outputs 0 for a clause whose action bits restricted to
the low F bits are all zero — non-tail action words zero, tail action word
zero under the filter — regardless of how many patches match; UpdateEval
does not enforce the all-exclude rule and outputs 1 whenever some patch
passes its match test.  Scenario S1 (F=4, C=1, P=1, B_ta=3, action plane
0000, lower plane arbitrary, Xi=1111) instantiates both parts. -/
theorem c5_all_exclude_guard (ta : Nat → Nat) (K B filter P : Nat) (la Xi : Nat → Nat)
    (hz : ∀ k, k < K - 1 → ta (k * B + B - 1) = 0)
    (hzt : ta ((K - 1) * B + B - 1) &&& filter = 0) :
    cb_calculate_clause_output_predict ta K B filter P Xi = 0 ∧
      ((∃ p, p < P ∧ fbPatchMatch ta K B filter la Xi p = true) →
        cb_calculate_clause_output_update ta K B filter P la Xi = 1) := by
  have hae : allExclude ta K B filter = true := by
    unfold allExclude
    rw [Bool.and_eq_true]
    constructor
    · rw [List.all_eq_true]
      intro k hk
      rw [hz k (List.mem_range.mp hk)]
      simp
    · rw [hzt]
      simp
  constructor
  · unfold cb_calculate_clause_output_predict
    rw [if_neg]
    intro hany
    rw [List.any_eq_true] at hany
    obtain ⟨p, hp, hcond⟩ := hany
    rw [hae] at hcond
    simp at hcond
  · rintro ⟨p, hpP, hmatch⟩
    unfold cb_calculate_clause_output_update
    have hany : (List.range P).any (fbPatchMatch ta K B filter la Xi) = true :=
      List.any_eq_true.mpr ⟨p, List.mem_range.mpr hpP, hmatch⟩
    rw [if_pos hany]

theorem c5_all_exclude_guard_witness :
    (∀ k, k < 1 - 1 → (fun p : Nat => if p = 0 then (5:Nat) else 0) (k * 3 + 3 - 1) = 0) ∧
    ((fun p : Nat => if p = 0 then (5:Nat) else 0) ((1 - 1) * 3 + 3 - 1) &&& 15 = 0) ∧
    cb_calculate_clause_output_predict (fun p => if p = 0 then 5 else 0) 1 3 15 1
        (fun _ => 15) = 0 ∧
    cb_calculate_clause_output_update (fun p => if p = 0 then 5 else 0) 1 3 15 1
        (fun _ => 15) (fun _ => 15) = 1 := by
  have h := c5_all_exclude_guard (fun p => if p = 0 then 5 else 0) 1 3 15 1
    (fun _ => 15) (fun _ => 15) (fun k hk => absurd hk (by omega)) (by decide)
  exact ⟨fun k hk => absurd hk (by omega), by decide, h.1, h.2 ⟨0, by omega, by decide⟩⟩

/-- C6: viewing a stripe of B plane words as 32 independent B-bit counters,
any sequence of cb_inc / cb_dec calls with arbitrary masks keeps every
counter in [0, 2^B - 1]; a cb_inc on a selected counter saturates at
2^B - 1 (so an increment at the maximum leaves it there, otherwise adds
one), a cb_dec on a selected counter saturates at 0 (truncated subtraction:
a decrement at 0 leaves 0, otherwise subtracts one), and counters whose
lane is not selected by the mask are unchanged. -/
theorem c6_saturating_counters (col : List Nat) (a i : Nat) (ops : List (Bool × Nat))
    (hi : i < 32) :
    ((cbSeq col ops).length = col.length ∧ laneVal (cbSeq col ops) i < 2 ^ col.length) ∧
      (a.testBit i = true →
        laneVal (cb_inc_list col a) i = min (laneVal col i + 1) (2 ^ col.length - 1) ∧
        laneVal (cb_dec_list col a) i = laneVal col i - 1) ∧
      (a.testBit i = false →
        laneVal (cb_inc_list col a) i = laneVal col i ∧
        laneVal (cb_dec_list col a) i = laneVal col i) := by
  refine ⟨⟨cbSeq_length col ops, ?_⟩, fun h => ⟨laneVal_cb_inc_list_bit col a i h,
    laneVal_cb_dec_list_bit col a i hi h⟩, fun h => ⟨laneVal_cb_inc_list_not_bit col a i h,
    laneVal_cb_dec_list_not_bit col a i hi h⟩⟩
  have hlt := laneVal_lt (cbSeq col ops) i
  rw [cbSeq_length col ops] at hlt
  exact hlt

theorem c6_saturating_counters_witness :
    (0:Nat) < 32 ∧ Nat.testBit 1 0 = true ∧
    laneVal (cb_inc_list [4294967295, 4294967295] 1) 0 =
      min (laneVal [4294967295, 4294967295] 0 + 1) (2 ^ 2 - 1) ∧
    laneVal (cb_dec_list [0, 0] 1) 0 = laneVal [0, 0] 0 - 1 := by
  refine ⟨by decide, by decide, ?_, ?_⟩
  · have h := ((c6_saturating_counters [4294967295, 4294967295] 1 0 []
      (by decide)).2.1 (by decide)).1
    simpa using h
  · have h := ((c6_saturating_counters [0, 0] 1 0 []
      (by decide)).2.1 (by decide)).2
    simpa using h

theorem c9_tail_masking_witness :
    (fun p : Nat => if p = 0 then (3:Nat) else 0) 0 ≠
        (fun p : Nat => if p = 0 then (11:Nat) else 0) 0 ∧
    cb_calculate_clause_output_predict (fun p => if p = 0 then 3 else 0) (numChunks 3) 1
        (mkFilter 3) 1 (fun _ => 7) =
      cb_calculate_clause_output_predict (fun p => if p = 0 then 11 else 0) (numChunks 3) 1
        (mkFilter 3) 1 (fun _ => 7) ∧
    cb_calculate_clause_output_update (fun p => if p = 0 then 3 else 0) (numChunks 3) 1
        (mkFilter 3) 1 (fun _ => 0) (fun _ => 7) =
      cb_calculate_clause_output_update (fun p => if p = 0 then 11 else 0) (numChunks 3) 1
        (mkFilter 3) 1 (fun _ => 0) (fun _ => 7) := by
  have h := c9_tail_masking (fun _ => 0) (fun p => if p = 0 then 3 else 0)
    (fun p => if p = 0 then 11 else 0) 3 1 1 (fun _ => 0) (fun _ => 7) 0
    (by decide) (by decide)
    (fun q => by
      dsimp only
      by_cases hq : q = 0
      · rw [if_pos hq]; decide
      · rw [if_neg hq]; decide)
    (fun q => by
      dsimp only
      by_cases hq : q = 0
      · rw [if_pos hq]; decide
      · rw [if_neg hq]; decide)
    ?hag
  · exact ⟨by decide, h.1, h.2.1⟩
  case hag =>
    intro k b i hk hb hi hf
    have hK1 : numChunks 3 = 1 := rfl
    have hk0 : k = 0 := by omega
    have hb0 : b = 0 := by omega
    subst hk0
    subst hb0
    have hi3 : i < 3 := by
      simpa using hf
    interval_cases i <;> decide

/-- C10: in Type I and Type II feedback the update_p Bernoulli draw is taken
for every clause before clause_active is consulted (C short-circuit `||`),
so each call consumes one PRNG draw per clause even when the clause is
inactive: with every clause inactive the cursor still advances by exactly C
draws while the bank is unchanged.  Type III skips inactive clauses before
any draw: with every clause inactive the cursor does not move at all.  The
statement holds for every draw stream, gate predicate and random-stream
oracle. -/
theorem c10_prng_draw_order (stream : Nat → Nat) (updGate dGate : Nat → Bool)
    (initStreams : Nat → (Nat → Nat) × Nat) (C F B Bind P boost target : Nat)
    (clause_active la Xi : Nat → Nat) (st : Bank) (r : Nat)
    (h : ∀ j, j < C → clause_active j = 0) :
    cb_type_i_feedback stream updGate initStreams C F B P boost
        clause_active la Xi st r = (st, r + C) ∧
      cb_type_ii_feedback stream updGate C F B P clause_active la Xi st r = (st, r + C) ∧
      cb_type_iii_feedback stream updGate dGate C F B Bind P target
        clause_active la Xi st r = (st, r) :=
  ⟨cb_type_i_feedback_all_inactive stream updGate initStreams C F B P boost
      clause_active la Xi st r h,
    cb_type_ii_feedback_all_inactive stream updGate C F B P clause_active la Xi st r h,
    cb_type_iii_feedback_all_inactive stream updGate dGate C F B Bind P target
      clause_active la Xi st r h⟩

theorem c10_prng_draw_order_witness :
    (∀ j, j < 3 → (fun _ : Nat => (0:Nat)) j = 0) ∧
    (cb_type_i_feedback (fun _ => 7) (fun _ => false) (fun r => (fun _ => 0, r + 5)) 3 1 2 1 0
        (fun _ => 0) (fun _ => 0) (fun _ => 0) ⟨fun _ => 9, fun _ => 0, fun _ => 0⟩ 10 =
      (⟨fun _ => 9, fun _ => 0, fun _ => 0⟩, 13)) ∧
    (cb_type_iii_feedback (fun _ => 7) (fun _ => false) (fun _ => false) 3 1 2 1 1 0
        (fun _ => 0) (fun _ => 0) (fun _ => 0) ⟨fun _ => 9, fun _ => 0, fun _ => 0⟩ 10 =
      (⟨fun _ => 9, fun _ => 0, fun _ => 0⟩, 10)) := by
  have h := c10_prng_draw_order (fun _ => 7) (fun _ => false) (fun _ => false)
    (fun r => (fun _ => 0, r + 5)) 3 1 2 1 1 0 0
    (fun _ => 0) (fun _ => 0) (fun _ => 0) ⟨fun _ => 9, fun _ => 0, fun _ => 0⟩ 10
    (fun j _ => rfl)
  exact ⟨fun j _ => rfl, h.1, h.2.2⟩

/-- C8: for every clause j with clause_active[j] = 0, every feedback call
leaves ta_state[j,...], ind_state[j,...] and clause_and_target[j,...]
exactly unchanged.  Type I and Type II receive only the ta_state pointer,
so their runs leave the whole ind and cat arrays untouched and skip clause
j's TA stripe; Type III skips clause j before any work.  The Type III part
carries the 32-bit bounds on ta_state words and literal_active words (true
by type in the C), needed to bound the ledger index that the
offending-literal toggle of other clauses can write. -/
theorem c8_inactive_clause_frame (stream : Nat → Nat) (updGate dGate : Nat → Bool)
    (initStreams : Nat → (Nat → Nat) × Nat) (C F B Bta Bind P boost target : Nat)
    (clause_active la Xi : Nat → Nat) (st : Bank) (r : Nat) (j : Nat)
    (hj : clause_active j = 0)
    (hla : ∀ k, la k < 2 ^ 32) (hta : ∀ q, st.ta q < 2 ^ 32) :
    ((∀ p, j * (numChunks F * B) ≤ p → p < j * (numChunks F * B) + numChunks F * B →
        (cb_type_i_feedback stream updGate initStreams C F B P boost
          clause_active la Xi st r).1.ta p = st.ta p) ∧
      (cb_type_i_feedback stream updGate initStreams C F B P boost
        clause_active la Xi st r).1.ind = st.ind ∧
      (cb_type_i_feedback stream updGate initStreams C F B P boost
        clause_active la Xi st r).1.cat = st.cat) ∧
    ((∀ p, j * (numChunks F * B) ≤ p → p < j * (numChunks F * B) + numChunks F * B →
        (cb_type_ii_feedback stream updGate C F B P
          clause_active la Xi st r).1.ta p = st.ta p) ∧
      (cb_type_ii_feedback stream updGate C F B P clause_active la Xi st r).1.ind =
        st.ind ∧
      (cb_type_ii_feedback stream updGate C F B P clause_active la Xi st r).1.cat =
        st.cat) ∧
    ((∀ p, j * (numChunks F * Bta) ≤ p → p < j * (numChunks F * Bta) + numChunks F * Bta →
        (cb_type_iii_feedback stream updGate dGate C F Bta Bind P target
          clause_active la Xi st r).1.ta p = st.ta p) ∧
      (∀ p, j * (numChunks F * Bind) ≤ p →
          p < j * (numChunks F * Bind) + numChunks F * Bind →
        (cb_type_iii_feedback stream updGate dGate C F Bta Bind P target
          clause_active la Xi st r).1.ind p = st.ind p) ∧
      (∀ p, j * numChunks F ≤ p → p < j * numChunks F + numChunks F →
        (cb_type_iii_feedback stream updGate dGate C F Bta Bind P target
          clause_active la Xi st r).1.cat p = st.cat p)) := by
  refine ⟨⟨?_, ?_, ?_⟩, ⟨?_, ?_, ?_⟩, ?_⟩
  · intro p h1 h2
    exact cb_type_i_feedback_clause_frame stream updGate initStreams C F B P boost
      clause_active la Xi st r j p hj h1 h2
  · exact (cb_type_i_feedback_ind_cat stream updGate initStreams C F B P boost
      clause_active la Xi st r).1
  · exact (cb_type_i_feedback_ind_cat stream updGate initStreams C F B P boost
      clause_active la Xi st r).2
  · intro p h1 h2
    exact cb_type_ii_feedback_clause_frame stream updGate C F B P
      clause_active la Xi st r j p hj h1 h2
  · exact (cb_type_ii_feedback_ind_cat stream updGate C F B P
      clause_active la Xi st r).1
  · exact (cb_type_ii_feedback_ind_cat stream updGate C F B P
      clause_active la Xi st r).2
  · exact cb_type_iii_feedback_clause_frame stream updGate dGate C F Bta Bind P target
      clause_active la Xi st r j hj hla hta (Nat.succ_pos _)

theorem c8_inactive_clause_frame_witness :
    (fun _ : Nat => (0:Nat)) 0 = 0 ∧
    (cb_type_i_feedback (fun _ => 7) (fun _ => false) (fun r => (fun _ => 0, r)) 1 1 2 1 0
        (fun _ => 0) (fun _ => 3) (fun _ => 0)
        ⟨fun _ => 9, fun _ => 5, fun _ => 6⟩ 0).1.ta 0 = 9 ∧
    (cb_type_ii_feedback (fun _ => 7) (fun _ => false) 1 1 2 1
        (fun _ => 0) (fun _ => 3) (fun _ => 0)
        ⟨fun _ => 9, fun _ => 5, fun _ => 6⟩ 0).1.ta 1 = 9 ∧
    (cb_type_iii_feedback (fun _ => 7) (fun _ => false) (fun _ => false) 1 1 2 1 1 0
        (fun _ => 0) (fun _ => 3) (fun _ => 0)
        ⟨fun _ => 9, fun _ => 5, fun _ => 6⟩ 0).1.cat 0 = 6 := by
  have h := c8_inactive_clause_frame (fun _ => 7) (fun _ => false) (fun _ => false)
    (fun r => (fun _ => 0, r)) 1 1 2 2 1 1 0 0
    (fun _ => 0) (fun _ => 3) (fun _ => 0)
    ⟨fun _ => 9, fun _ => 5, fun _ => 6⟩ 0 0 rfl
    (fun k => by show (3:Nat) < 2 ^ 32; decide)
    (fun q => by show (9:Nat) < 2 ^ 32; decide)
  exact ⟨rfl, h.1.1 0 (by decide) (by decide), h.2.1.1 1 (by decide) (by decide),
    h.2.2.2.2 0 (by decide) (by decide)⟩

/-- C7: the complete effect of Type II feedback on TA state.  (a) For a
selected clause with Feedback-mode output 1 the Type II chunk loop
increments, in every chunk k, exactly the lanes selected by
`literal_active[k] & ~Xi[clause_patch,k] & ~action_word(k)` — each selected
counter rises by one, saturating at 2^B - 1, every unselected counter of the
chunk keeps its value, and every word outside the clause stripe is
untouched.  (b) A whole cb_type_ii_feedback run never decreases any aligned
counter stripe: Type II never decrements a TA.  (c) The Type Ib chunk loop
never increases any aligned counter stripe: Type Ib never increments a
TA.  (d) A whole cb_type_i_feedback run returns the ind_state and
clause_and_target arrays unchanged: Type I never reads or writes the
inclusion-indicator layer (the C function does not even receive those
pointers). -/
theorem c7_type_ii_complete_effect (stream : Nat → Nat) (updGate : Nat → Bool)
    (initStreams : Nat → (Nat → Nat) × Nat) (C F B P boost : Nat)
    (clause_active la Xi ftt : Nat → Nat) (st : Bank) (r : Nat)
    (ta : Nat → Nat) (cpos c0 K k0 patch m i : Nat)
    (hk0 : k0 < K) (hB : 0 < B) (hi : i < 32) :
    (laneVal (readStripe (typeIIBody ta cpos K B la Xi patch) (cpos + k0 * B) B) i =
      (if (la k0 &&& compl32 (Xi (patch * K + k0)) &&&
            compl32 (ta (cpos + k0 * B + B - 1))).testBit i then
        min (laneVal (readStripe ta (cpos + k0 * B) B) i + 1) (2 ^ B - 1)
      else laneVal (readStripe ta (cpos + k0 * B) B) i)) ∧
    (∀ p, p < cpos ∨ cpos + K * B ≤ p → typeIIBody ta cpos K B la Xi patch p = ta p) ∧
    laneVal (readStripe st.ta (m * B) B) i ≤
      laneVal (readStripe
        (cb_type_ii_feedback stream updGate C F B P clause_active la Xi st r).1.ta
        (m * B) B) i ∧
    laneVal (readStripe (typeIbBody ta (c0 * B) K B la ftt) (m * B) B) i ≤
      laneVal (readStripe ta (m * B) B) i ∧
    (cb_type_i_feedback stream updGate initStreams C F B P boost
      clause_active la Xi st r).1.ind = st.ind ∧
    (cb_type_i_feedback stream updGate initStreams C F B P boost
      clause_active la Xi st r).1.cat = st.cat := by
  refine ⟨?_, ?_, ?_, ?_, ?_, ?_⟩
  · rw [typeIIBody_stripe ta cpos K B la Xi patch k0 hk0 hB]
    cases hm : (la k0 &&& compl32 (Xi (patch * K + k0)) &&&
        compl32 (ta (cpos + k0 * B + B - 1))).testBit i
    · rw [laneVal_cb_inc_list_not_bit _ _ _ hm]
      simp
    · rw [laneVal_cb_inc_list_bit _ _ _ hm, readStripe_length]
      simp
  · intro p hp
    exact typeIIBody_frame ta cpos K B la Xi patch p hp
  · exact cb_type_ii_feedback_ge stream updGate C F B P clause_active la Xi st r m i hi
  · exact typeIbBody_le ta c0 K B la ftt m i hi
  · exact (cb_type_i_feedback_ind_cat stream updGate initStreams C F B P boost
      clause_active la Xi st r).1
  · exact (cb_type_i_feedback_ind_cat stream updGate initStreams C F B P boost
      clause_active la Xi st r).2

theorem c7_type_ii_complete_effect_witness :
    (0:Nat) < 1 ∧ (0:Nat) < 2 ∧ (0:Nat) < 32 ∧
    laneVal (readStripe (typeIIBody (fun p => if p = 0 then 2 else 0) 0 1 2
        (fun _ => 1) (fun _ => 0) 0) (0 + 0 * 2) 2) 0 =
      (if ((fun _ : Nat => (1:Nat)) 0 &&& compl32 ((fun _ : Nat => (0:Nat)) (0 * 1 + 0)) &&&
            compl32 ((fun p : Nat => if p = 0 then (2:Nat) else 0) (0 + 0 * 2 + 2 - 1))).testBit 0 then
        min (laneVal (readStripe (fun p => if p = 0 then 2 else 0) (0 + 0 * 2) 2) 0 + 1)
          (2 ^ 2 - 1)
      else laneVal (readStripe (fun p => if p = 0 then 2 else 0) (0 + 0 * 2) 2) 0) := by
  have h := c7_type_ii_complete_effect (fun _ => 0) (fun _ => false)
    (fun r => (fun _ => 0, r)) 1 1 2 1 0 (fun _ => 1) (fun _ => 1) (fun _ => 0) (fun _ => 0)
    ⟨fun _ => 0, fun _ => 0, fun _ => 0⟩ 0
    (fun p => if p = 0 then 2 else 0) 0 0 1 0 0 0 0
    (by decide) (by decide) (by decide)
  exact ⟨by decide, by decide, by decide, h.1⟩

theorem typeIClauseStep_ta_testBit (stream : Nat → Nat) (updGate : Nat → Bool)
    (initStreams : Nat → (Nat → Nat) × Nat) (K B P filter boost : Nat)
    (clause_active la Xi : Nat → Nat) (s : Bank × Nat) (j k b i : Nat)
    (hk : k < K) (hb : b < B) (hi : i < 32) (hla : (la k).testBit i = false) :
    (((typeIClauseStep stream updGate initStreams K B P filter boost clause_active la Xi
        s j).1.ta (j * K * B + k * B + b)).testBit i) =
      ((s.1.ta (j * K * B + k * B + b)).testBit i) := by
  simp only [typeIClauseStep]
  split
  · rfl
  · split
    · exact typeIaBody_testBit _ _ _ _ _ _ _ _ _ k b i hk hb hi hla
    · exact typeIbBody_testBit _ _ _ _ _ _ k b i hk hb hi hla

theorem typeIIClauseStep_ta_testBit (stream : Nat → Nat) (updGate : Nat → Bool)
    (K B P filter : Nat) (clause_active la Xi : Nat → Nat) (s : Bank × Nat)
    (j k b i : Nat)
    (hk : k < K) (hb : b < B) (hi : i < 32) (hla : (la k).testBit i = false) :
    (((typeIIClauseStep stream updGate K B P filter clause_active la Xi
        s j).1.ta (j * K * B + k * B + b)).testBit i) =
      ((s.1.ta (j * K * B + k * B + b)).testBit i) := by
  simp only [typeIIClauseStep]
  split
  · rfl
  · split
    · exact typeIIBody_testBit _ _ _ _ _ _ _ k b i hk hb hi hla
    · rfl

theorem typeIIIClauseStep_ta_testBit (stream : Nat → Nat) (updGate dGate : Nat → Bool)
    (K Bta Bind P filter target : Nat) (clause_active la Xi : Nat → Nat)
    (s : Bank × Nat) (j k b i : Nat)
    (hk : k < K) (hb : b < Bta) (hi : i < 32) (hla : (la k).testBit i = false) :
    (((typeIIIClauseStep stream updGate dGate K Bta Bind P filter target clause_active la Xi
        s j).1.ta (j * K * Bta + k * Bta + b)).testBit i) =
      ((s.1.ta (j * K * Bta + k * Bta + b)).testBit i) := by
  simp only [typeIIIClauseStep]
  by_cases hact : (clause_active j == 0) = true
  · rw [if_pos hact]
  · rw [if_neg hact]
    cases hev : (cb_calculate_clause_output_feedback stream
        (fun q => s.1.ta (j * K * Bta + q)) K Bta filter P la Xi s.2).1 with
    | some patch =>
      dsimp only
      repeat' split
      all_goals first
        | rfl
        | exact typeIIITaDec_testBit _ _ _ _ _ _ _ _ k b i hk hb hi hla
    | none =>
      dsimp only
      repeat' split
      all_goals first
        | rfl
        | exact typeIIITaDec_testBit _ _ _ _ _ _ _ _ k b i hk hb hi hla

/-- C4 counterexample: the claim quantifies over ANY contents of Xi and
literal_active.  Take Type II feedback with F=1 (so K=1, the only chunk is
the tail), B=2, P=1, C=1, the clause active and the gate passing,
literal_active word 0b10 (padding bit 1 set), Xi = 0, action plane 0 and
lower plane 0b10 (the padding counter at value 1).  Every action bit at
position ≥ F = 1 is 0 before the call; the Type II increment mask is 0b10,
the padding counter steps from 01 to 10, and the action-plane bit 1 becomes
1 after the call: feedback activated a literal beyond bit F-1. -/
theorem c4_counterexample :
    ((fun p : Nat => if p = 0 then (2:Nat) else 0) 1).testBit 1 = false ∧
    (((cb_type_ii_feedback (fun _ => 0) (fun _ => false) 1 1 2 1 (fun _ => 1)
        (fun _ => 2) (fun _ => 0)
        ⟨fun p => if p = 0 then 2 else 0, fun _ => 0, fun _ => 0⟩ 0).1.ta 1).testBit 1) =
      true := by
  exact ⟨by decide, by decide⟩

/-- C4 amended: the conclusion holds once literal_active is required to
clear the lanes in question (the driver's obligation for the padding
lanes).  Whenever lane i of literal_active word k is 0, NO feedback call —
Type I, II or III — changes bit i of any plane word of any clause's chunk-k
TA stripe; in particular, with the tail-chunk padding lanes of
literal_active cleared, action bits at positions ≥ F that are 0 before a
feedback call are still 0 after it, for any contents of Xi. -/
theorem c4_amended (stream : Nat → Nat) (updGate dGate : Nat → Bool)
    (initStreams : Nat → (Nat → Nat) × Nat) (C F B Bta Bind P boost target : Nat)
    (clause_active la Xi : Nat → Nat) (st : Bank) (r : Nat)
    (j k b i : Nat) (hk : k < numChunks F) (hi : i < 32)
    (hla : (la k).testBit i = false) :
    (b < B →
      (((cb_type_i_feedback stream updGate initStreams C F B P boost clause_active la Xi
          st r).1.ta (j * numChunks F * B + k * B + b)).testBit i) =
        ((st.ta (j * numChunks F * B + k * B + b)).testBit i)) ∧
    (b < B →
      (((cb_type_ii_feedback stream updGate C F B P clause_active la Xi
          st r).1.ta (j * numChunks F * B + k * B + b)).testBit i) =
        ((st.ta (j * numChunks F * B + k * B + b)).testBit i)) ∧
    (b < Bta →
      (((cb_type_iii_feedback stream updGate dGate C F Bta Bind P target clause_active la Xi
          st r).1.ta (j * numChunks F * Bta + k * Bta + b)).testBit i) =
        ((st.ta (j * numChunks F * Bta + k * Bta + b)).testBit i)) := by
  refine ⟨fun hb => ?_, fun hb => ?_, fun hb => ?_⟩
  · unfold cb_type_i_feedback
    refine foldl_inv _ (fun s => ((s.1.ta (j * numChunks F * B + k * B + b)).testBit i) =
      ((st.ta (j * numChunks F * B + k * B + b)).testBit i)) _ (st, r) ?_ rfl
    intro s j' hj' hs
    by_cases hEq : j' = j
    · subst hEq
      rw [typeIClauseStep_ta_testBit stream updGate initStreams (numChunks F) B P
        (mkFilter F) boost clause_active la Xi s j' k b i hk hb hi hla]
      exact hs
    · rw [typeIClauseStep_ta_frame _ _ _ _ _ _ _ _ _ _ _ _ _ _ ?_]
      · exact hs
      · have e1 : j * numChunks F * B = j * (numChunks F * B) := Nat.mul_assoc _ _ _
        have e2 : j' * numChunks F * B = j' * (numChunks F * B) := Nat.mul_assoc _ _ _
        have hkb : k * B + B ≤ numChunks F * B := by
          have := Nat.mul_le_mul_right B (show k + 1 ≤ numChunks F by omega)
          rw [Nat.succ_mul] at this
          omega
        rw [e2]
        refine region_disjoint hEq ?_ ?_ <;> omega
  · unfold cb_type_ii_feedback
    refine foldl_inv _ (fun s => ((s.1.ta (j * numChunks F * B + k * B + b)).testBit i) =
      ((st.ta (j * numChunks F * B + k * B + b)).testBit i)) _ (st, r) ?_ rfl
    intro s j' hj' hs
    by_cases hEq : j' = j
    · subst hEq
      rw [typeIIClauseStep_ta_testBit stream updGate (numChunks F) B P
        (mkFilter F) clause_active la Xi s j' k b i hk hb hi hla]
      exact hs
    · rw [typeIIClauseStep_ta_frame _ _ _ _ _ _ _ _ _ _ _ _ ?_]
      · exact hs
      · have e1 : j * numChunks F * B = j * (numChunks F * B) := Nat.mul_assoc _ _ _
        have e2 : j' * numChunks F * B = j' * (numChunks F * B) := Nat.mul_assoc _ _ _
        have hkb : k * B + B ≤ numChunks F * B := by
          have := Nat.mul_le_mul_right B (show k + 1 ≤ numChunks F by omega)
          rw [Nat.succ_mul] at this
          omega
        rw [e2]
        refine region_disjoint hEq ?_ ?_ <;> omega
  · unfold cb_type_iii_feedback
    refine foldl_inv _ (fun s => ((s.1.ta (j * numChunks F * Bta + k * Bta + b)).testBit i) =
      ((st.ta (j * numChunks F * Bta + k * Bta + b)).testBit i)) _ (st, r) ?_ rfl
    intro s j' hj' hs
    by_cases hEq : j' = j
    · subst hEq
      rw [typeIIIClauseStep_ta_testBit stream updGate dGate (numChunks F) Bta Bind P
        (mkFilter F) target clause_active la Xi s j' k b i hk hb hi hla]
      exact hs
    · rw [typeIIIClauseStep_ta_frame _ _ _ _ _ _ _ _ _ _ _ _ _ _ _ ?_]
      · exact hs
      · have e1 : j * numChunks F * Bta = j * (numChunks F * Bta) := Nat.mul_assoc _ _ _
        have e2 : j' * numChunks F * Bta = j' * (numChunks F * Bta) := Nat.mul_assoc _ _ _
        have hkb : k * Bta + Bta ≤ numChunks F * Bta := by
          have := Nat.mul_le_mul_right Bta (show k + 1 ≤ numChunks F by omega)
          rw [Nat.succ_mul] at this
          omega
        rw [e2]
        refine region_disjoint hEq ?_ ?_ <;> omega

theorem c4_amended_witness :
    (0:Nat) < numChunks 1 ∧ (1:Nat) < 32 ∧ Nat.testBit 1 1 = false ∧
    (((cb_type_ii_feedback (fun _ => 0) (fun _ => false) 1 1 2 1 (fun _ => 1)
        (fun _ => 1) (fun _ => 0)
        ⟨fun p => if p = 0 then 2 else 0, fun _ => 0, fun _ => 0⟩ 0).1.ta
          (0 * numChunks 1 * 2 + 0 * 2 + 1)).testBit 1) =
      (((fun p : Nat => if p = 0 then (2:Nat) else 0) (0 * numChunks 1 * 2 + 0 * 2 + 1)).testBit 1) := by
  have h := c4_amended (fun _ => 0) (fun _ => false) (fun _ => false)
    (fun r => (fun _ => 0, r)) 1 1 2 2 1 1 0 0 (fun _ => 1) (fun _ => 1) (fun _ => 0)
    ⟨fun p => if p = 0 then 2 else 0, fun _ => 0, fun _ => 0⟩ 0 0 0 1 1
    (by decide) (by decide) (by decide)
  exact ⟨by decide, by decide, by decide, h.2.1 (by decide)⟩

/-- C3 counterexample: the claim says that in the final Type III TA update
only TAs of included literals drift down and TAs of excluded literals
(action bit 0) are not decremented.  Concretely with F=1, K=1, B_ta=2,
B_ind=1, P=1, one active clause, update_p gate passing, literal 0 EXCLUDED
(action plane word is 0) with its counter at 1, ind_state all zero and
literal_active = 1: cb_type_iii_feedback decrements the excluded literal's
counter from 1 to 0 — the mask `literal_active & ~top_bit(ind_state)` does
not consult the action plane. -/
theorem c3_counterexample :
    ((fun p : Nat => if p = 0 then (1:Nat) else 0) (2 - 1)).testBit 0 = false ∧
    (fun p : Nat => if p = 0 then (1:Nat) else 0) 0 = 1 ∧
    (cb_type_iii_feedback (fun _ => 0) (fun _ => false) (fun _ => false) 1 1 2 1 1 0
        (fun _ => 1) (fun _ => 1) (fun _ => 0)
        ⟨fun p => if p = 0 then 1 else 0, fun _ => 0, fun _ => 0⟩ 0).1.ta 0 = 0 := by
  exact ⟨by decide, by decide, by decide⟩

/-- C3 amended: the final Type III TA update (ClauseBank.c lines 421-426)
decrements, in every chunk k, exactly the counters selected by
`literal_active[k] & ~top_plane(ind_state)`.  The mask does not consult the
TA action plane, so selected TAs of excluded literals (action bit 0) drift
down exactly like those of included literals; counters whose lane is not
selected, and every word outside the clause stripe, are unchanged. -/
theorem c3_amended (ta ind : Nat → Nat) (cposTa cposInd K Bta Bind : Nat)
    (la : Nat → Nat) (k0 i : Nat) (hk0 : k0 < K) (hi : i < 32) :
    (laneVal (readStripe (typeIIITaDec ta ind cposTa cposInd K Bta Bind la)
        (cposTa + k0 * Bta) Bta) i =
      (if (la k0).testBit i = true ∧
          (ind (cposInd + k0 * Bind + Bind - 1)).testBit i = false then
        laneVal (readStripe ta (cposTa + k0 * Bta) Bta) i - 1
      else laneVal (readStripe ta (cposTa + k0 * Bta) Bta) i)) ∧
    (∀ p, p < cposTa ∨ cposTa + K * Bta ≤ p →
      typeIIITaDec ta ind cposTa cposInd K Bta Bind la p = ta p) := by
  constructor
  · rw [typeIIITaDec_stripe ta ind cposTa cposInd K Bta Bind la k0 hk0]
    have hmask : (la k0 &&& compl32 (ind (cposInd + k0 * Bind + Bind - 1))).testBit i =
        ((la k0).testBit i && !(ind (cposInd + k0 * Bind + Bind - 1)).testBit i) := by
      rw [Nat.testBit_and, compl32_testBit _ hi]
    cases hm : (la k0 &&& compl32 (ind (cposInd + k0 * Bind + Bind - 1))).testBit i
    · rw [laneVal_cb_dec_list_not_bit _ _ _ hi hm]
      rw [hm] at hmask
      rw [if_neg]
      rintro ⟨h1, h2⟩
      rw [h1, h2] at hmask
      simp at hmask
    · rw [laneVal_cb_dec_list_bit _ _ _ hi hm]
      rw [hm] at hmask
      rw [if_pos]
      constructor
      · exact Bool.and_elim_left hmask.symm
      · have := Bool.and_elim_right hmask.symm
        simpa using this
  · intro p hp
    exact typeIIITaDec_frame ta ind cposTa cposInd K Bta Bind la p hp

theorem c3_amended_witness :
    (0:Nat) < 1 ∧ (0:Nat) < 32 ∧
    laneVal (readStripe (typeIIITaDec (fun p => if p = 0 then 1 else 0) (fun _ => 0)
        0 0 1 2 1 (fun _ => 1)) (0 + 0 * 2) 2) 0 =
      (if ((fun _ : Nat => (1:Nat)) 0).testBit 0 = true ∧
          ((fun _ : Nat => (0:Nat)) (0 + 0 * 1 + 1 - 1)).testBit 0 = false then
        laneVal (readStripe (fun p : Nat => if p = 0 then (1:Nat) else 0) (0 + 0 * 2) 2) 0 - 1
      else laneVal (readStripe (fun p : Nat => if p = 0 then (1:Nat) else 0) (0 + 0 * 2) 2) 0) := by
  have h := c3_amended (fun p => if p = 0 then 1 else 0) (fun _ => 0) 0 0 1 2 1
    (fun _ => 1) 0 0 (by decide) (by decide)
  exact ⟨by decide, by decide, h.1⟩

/-- C2 counterexample: the claim says that when ANY patch has more than one
offending bit across its chunk stripe the search returns the no-result
sentinel -1.  With K=1, B=1, filter=3 (F=2), P=2, action word 0b11,
literal_active all-ones (its bitwise complement is 0), Xi giving patch 0
exactly one offending bit and patch 1 two offending bits (tail offending
word 0b11, popcount 2): the tail-chunk handler's `break` leaves the PATCH
loop with the candidate already collected from patch 0, and the search
returns literal id 1, not the sentinel. -/
theorem c2_counterexample :
    sflOffTail (fun p => if p = 0 then 3 else 0) 1 1 3 (fun _ => M32)
        (fun idx => if idx = 0 then 1 else 0) 1 = 3 ∧
    0 < (3:Nat) &&& (3 - 1) ∧
    (cb_calculate_clause_output_single_false_literal (fun _ => 0)
        (fun p => if p = 0 then 3 else 0) 1 1 3 2 (fun _ => M32)
        (fun idx => if idx = 0 then 1 else 0) 0).1 = 1 ∧
    (1 : Int) ≠ -1 := by
  exact ⟨by decide, by decide, by decide, by decide⟩

/-- C2 amended: the search as implemented.  A patch whose non-tail chunks
disqualify it (a chunk with more than one offending bit, or offending bits
in two chunks) is merely skipped; when the tail chunk of a patch shows more
than one offending bit, or one offending tail bit after an earlier
offending chunk, the tail handler's `break` leaves the PATCH loop,
abandoning the remaining patches but keeping the candidates already
collected.  The result is the sentinel -1 exactly when no candidate was
collected; otherwise it is `candidates[fast_rand() % count]`, an element of
the collected list, and every non-sentinel result is in [0, F) (for 32-bit
TA words; note the recorded id of a non-tail chunk is the bit position
within the chunk word, which is also below F since F ≥ 33 whenever
non-tail chunks exist). -/
theorem c2_amended (stream : Nat → Nat) (ta : Nat → Nat) (B P : Nat) (F : Nat)
    (la Xi : Nat → Nat) (r : Nat) (hF : 0 < F) (hta : ∀ q, ta q < 2 ^ 32) :
    ((cb_calculate_clause_output_single_false_literal stream ta (numChunks F) B
        (mkFilter F) P la Xi r).1 = -1 ↔
      sflCollect ta (numChunks F) B (mkFilter F) la Xi (List.range P) = []) ∧
    ((cb_calculate_clause_output_single_false_literal stream ta (numChunks F) B
        (mkFilter F) P la Xi r).1 ≠ -1 →
      ∃ id ∈ sflCollect ta (numChunks F) B (mkFilter F) la Xi (List.range P),
        (cb_calculate_clause_output_single_false_literal stream ta (numChunks F) B
          (mkFilter F) P la Xi r).1 = Int.ofNat id ∧ id < F) := by
  have hnc : numChunks F = (F - 1) / 32 + 1 := rfl
  constructor
  · simp only [cb_calculate_clause_output_single_false_literal]
    split
    · rename_i hlen
      constructor
      · intro h
        dsimp only at h
        rw [Int.ofNat_eq_coe] at h
        omega
      · intro h
        rw [h] at hlen
        simp at hlen
    · rename_i hlen
      constructor
      · intro _
        have hz : (sflCollect ta (numChunks F) B (mkFilter F) la Xi (List.range P)).length
            = 0 := by omega
        exact List.length_eq_zero.mp hz
      · intro _
        rfl
  · intro hne
    rcases sfl_mem stream ta (numChunks F) B (mkFilter F) P la Xi r with h | ⟨id, hmem, hid⟩
    · exact absurd h hne
    · refine ⟨id, hmem, hid, ?_⟩
      set sig := if F % 32 = 0 then 32 else F % 32 with hsig
      have hsig32 : sig ≤ 32 := by
        rw [hsig]
        by_cases h0 : F % 32 = 0
        · simp [h0]
        · simp only [h0, if_false]
          have := Nat.mod_lt F (show 0 < 32 by omega)
          omega
      have hfl : mkFilter F < 2 ^ sig := by
        rw [mkFilter_eq, ← hsig]
        have : (0:Nat) < 2 ^ sig := Nat.pos_pow_of_pos _ (by omega)
        omega
      have hb := sflCollect_bound ta (numChunks F) B (mkFilter F) la Xi sig hfl hsig32
        hta (List.range P) id hmem
      rcases hb with ⟨hb32, hbK1⟩
      by_cases hK : numChunks F = 1
      · have hidsig := hbK1 hK
        have hsF : sig ≤ F := by
          rw [hsig]
          by_cases h0 : F % 32 = 0 <;> simp only [h0, if_true, if_false] <;> omega
        omega
      · omega

theorem c2_amended_witness :
    (0:Nat) < 2 ∧
    (∃ id ∈ sflCollect (fun p => if p = 0 then 3 else 0) (numChunks 2) 1 (mkFilter 2)
        (fun _ => M32) (fun idx => if idx = 0 then 1 else 0) (List.range 2),
      (cb_calculate_clause_output_single_false_literal (fun _ => 0)
        (fun p => if p = 0 then 3 else 0) (numChunks 2) 1 (mkFilter 2) 2 (fun _ => M32)
        (fun idx => if idx = 0 then 1 else 0) 0).1 = Int.ofNat id ∧ id < 2) := by
  have h := c2_amended (fun _ => 0) (fun p => if p = 0 then 3 else 0) 1 2 2
    (fun _ => M32) (fun idx => if idx = 0 then 1 else 0) 0 (by decide)
    (fun q => by
      dsimp only
      by_cases hq : q = 0
      · rw [if_pos hq]; decide
      · rw [if_neg hq]; decide)
  exact ⟨by decide, h.2 (by decide)⟩
